import Mathlib

/-!
Verification development for the pysui BCS serialization core
(`pysui/sui/sui_types/bcs.py`) and the transaction constraint verifier
(`pysui/sui/sui_pgql/pgql_txn_base.py`).

Python byte strings are modelled as `List Nat` with every element below 256.
Python `str` values are modelled by their UTF-8 byte sequences (all string
literals appearing in the source are ASCII, so a character is one byte).
Fallible Python code is modelled with `Except String`.
-/

namespace Pysui

/-- A decoder consumes a prefix of the input byte list and returns the decoded
value together with the remaining bytes, or fails. -/
abbrev Dec (α : Type) := List Nat → Except String (α × List Nat)

/-- Modelled from the spec: the Canonical Codec Core (canoser, §4.1) encodes
sequence counts and tagged-union variant indices as unsigned variable-length
(ULEB128) values: low 7 bits first, high bit set on every byte but the last.
The `fuel` argument only forces structural termination; `ulebEncode` below
always supplies enough. -/
def ulebEncodeAux (fuel n : Nat) : List Nat :=
  match fuel with
  | 0 => [n]
  | f + 1 => if n < 128 then [n] else (n % 128 + 128) :: ulebEncodeAux f (n / 128)

/-- ULEB128 encoding of a count or variant index. -/
def ulebEncode (n : Nat) : List Nat := ulebEncodeAux n n

/-- Modelled from the spec: ULEB128 decoding (§4.1); fails on premature
end of input. -/
def ulebDecode : Dec Nat
  | [] => .error "DecodeError: unexpected end of input"
  | b :: rest =>
    if b < 128 then .ok (b, rest)
    else
      match ulebDecode rest with
      | .ok (v, r) => .ok ((b - 128) + 128 * v, r)
      | .error e => .error e

/-- Modelled from the spec: unsigned fixed-width integers encode little-endian
with no sign bit (§4.1); `width` is the byte width. -/
def uintEncodeLE (width n : Nat) : List Nat :=
  match width with
  | 0 => []
  | w + 1 => n % 256 :: uintEncodeLE w (n / 256)

/-- Modelled from the spec: little-endian fixed-width decoding (§4.1); fails
on premature end of input. -/
def uintDecodeLE (width : Nat) : Dec Nat :=
  match width with
  | 0 => fun input => .ok (0, input)
  | w + 1 => fun input =>
    match input with
    | [] => .error "DecodeError: unexpected end of input"
    | b :: rest =>
      match uintDecodeLE w rest with
      | .ok (v, r) => .ok (b + 256 * v, r)
      | .error e => .error e

/-- Modelled from the spec: reading an exact number of raw bytes (used for
fixed-size byte arrays, §4.1); fails if the source has fewer bytes. -/
def readBytes (k : Nat) : Dec (List Nat) :=
  match k with
  | 0 => fun input => .ok ([], input)
  | j + 1 => fun input =>
    match input with
    | [] => .error "DecodeError: unexpected end of input"
    | b :: rest =>
      match readBytes j rest with
      | .ok (bs, r) => .ok (b :: bs, r)
      | .error e => .error e

/-- Modelled from the spec: a variable-length sequence encodes as a ULEB128
count followed by the concatenated element encodings (§4.1). -/
def encodeSeqWith (enc : α → List Nat) (xs : List α) : List Nat :=
  ulebEncode xs.length ++ (xs.map enc).flatten

/-- Decode exactly `n` consecutive elements. -/
def decodeListN (dec : Dec α) : Nat → Dec (List α)
  | 0 => fun input => .ok ([], input)
  | n + 1 => fun input =>
    match dec input with
    | .ok (x, r) =>
      match decodeListN dec n r with
      | .ok (xs, r2) => .ok (x :: xs, r2)
      | .error e => .error e
    | .error e => .error e

/-- Modelled from the spec: sequence decoding reads the ULEB128 count first,
then that many elements (§4.1). -/
def decodeSeqWith (dec : Dec α) : Dec (List α) := fun input =>
  match ulebDecode input with
  | .ok (n, r) => decodeListN dec n r
  | .error e => .error e

/-- Modelled from the spec: booleans encode as a single byte 1/0; decoding
any other byte fails (§4.1). -/
def encodeBool (b : Bool) : List Nat := [if b then 1 else 0]

/-- Boolean decoding: 1 is true, 0 is false, anything else is an error. -/
def decodeBool : Dec Bool
  | [] => .error "DecodeError: unexpected end of input"
  | b :: rest =>
    if b = 1 then .ok (true, rest)
    else if b = 0 then .ok (false, rest)
    else .error "DecodeError: invalid bool byte"

/-- Modelled from the spec: a Python `str` (held as its UTF-8 bytes) encodes
as a ULEB128 byte count followed by the raw bytes. -/
def encodeStr (s : List Nat) : List Nat := ulebEncode s.length ++ s

/-- String decoding reads the count then that many raw bytes. -/
def decodeStr : Dec (List Nat) := fun input =>
  match ulebDecode input with
  | .ok (n, r) => readBytes n r
  | .error e => .error e

/-- The `l.all (· < 256)`: the list is a byte string. -/
def isBytes (l : List Nat) : Bool := l.all (fun b => b < 256)

/-- The `Address` (bcs.py line 30): a Sui address or object id held as a list of
32 byte-sized ints; its single field is declared as
`ArrayT(Uint8, 32, False)`, i.e. a fixed-size array with NO count prefix. -/
structure Address where
  Address : List Nat
  deriving Repr, DecidableEq

/-- A constructible `Address`: exactly 32 entries, each a byte (the canoser
field check enforces both at construction time). -/
def validAddress (a : Address) : Bool := a.Address.length = 32 && isBytes a.Address

/-- Encoding an `Address`: the raw 32 bytes, no count prefix. -/
def encodeAddress (a : Address) : List Nat := a.Address

/-- Decoding an `Address`: exactly 32 raw bytes. -/
def decodeAddress : Dec Address := fun input =>
  match readBytes 32 input with
  | .ok (bs, r) => .ok (⟨bs⟩, r)
  | .error e => .error e

/-- The `Digest` (bcs.py line 58): a 32-byte digest. Unlike `Address`, its field
is declared `ArrayT(Uint8, 32)` WITHOUT disabling the count prefix, so the
codec default sequence behaviour applies and the wire form carries a
ULEB128 count (one byte, 32) before the 32 content bytes. -/
structure Digest where
  Digest : List Nat
  deriving Repr, DecidableEq

/-- A constructible `Digest`: exactly 32 entries, each a byte. -/
def validDigest (d : Digest) : Bool := d.Digest.length = 32 && isBytes d.Digest

/-- Modelled from the spec and the source codec declarations: the codec
engine (canoser, not under src/) length-prefixes arrays unless the prefix is
explicitly disabled; `Address` (bcs.py line 33) disables it, `Digest`
(bcs.py line 61) does not. -/
def encodeDigest (d : Digest) : List Nat := ulebEncode d.Digest.length ++ d.Digest

/-- Digest decoding: read the count, require it to equal the declared fixed
length 32, then read that many raw bytes. -/
def decodeDigest : Dec Digest := fun input =>
  match ulebDecode input with
  | .ok (n, r) =>
    if n = 32 then
      match readBytes 32 r with
      | .ok (bs, r2) => .ok (⟨bs⟩, r2)
      | .error e => .error e
    else .error "DecodeError: array length mismatch"
  | .error e => .error e

/-!
The mutually recursive pair `TypeTag` / `StructTag` (bcs.py lines 166-248).
In the source, the `Vector` payload of `TypeTag` is patched to `[TypeTag]` (a
length-prefixed LIST of type tags) and its `Struct` payload to `StructTag`
after both classes exist.  The list spine is represented explicitly
(`TypeTagList`) so that the mutual recursion is structural.
-/

mutual

inductive TypeTag where
  | Bool
  | U8
  | U64
  | U128
  | Address
  | Signer
  | Vector (payload : TypeTagList)
  | Struct (payload : StructTag)
  | U16
  | U32
  | U256

inductive StructTag where
  | mk (address : Address) (module : List Nat) (name : List Nat) (type_parameters : TypeTagList)

inductive TypeTagList where
  | nil
  | cons (head : TypeTag) (tail : TypeTagList)

end

deriving instance DecidableEq for TypeTag

deriving instance Repr for TypeTag

/-- Number of elements of a `TypeTagList`. -/
def tlLength : TypeTagList → Nat
  | .nil => 0
  | .cons _ t => tlLength t + 1

/-- View a `TypeTagList` as an ordinary list. -/
def tlToList : TypeTagList → List TypeTag
  | .nil => []
  | .cons h t => h :: tlToList t

mutual

/-- Variant indices follow the declared `_enums` order of `TypeTag`
(bcs.py lines 172-184). -/
def encodeTypeTag : TypeTag → List Nat
  | .Bool => ulebEncode 0
  | .U8 => ulebEncode 1
  | .U64 => ulebEncode 2
  | .U128 => ulebEncode 3
  | .Address => ulebEncode 4
  | .Signer => ulebEncode 5
  | .Vector l => ulebEncode 6 ++ (ulebEncode (tlLength l) ++ encodeTTElems l)
  | .Struct s => ulebEncode 7 ++ encodeStructTag s
  | .U16 => ulebEncode 8
  | .U32 => ulebEncode 9
  | .U256 => ulebEncode 10

/-- The `StructTag` fields encode in declared order: address, module, name,
type_parameters (bcs.py line 229). -/
def encodeStructTag : StructTag → List Nat
  | .mk a m n tps =>
    encodeAddress a ++ (encodeStr m ++ (encodeStr n ++
      (ulebEncode (tlLength tps) ++ encodeTTElems tps)))

/-- Concatenated element encodings of a type-tag list (the count prefix is
written by the caller). -/
def encodeTTElems : TypeTagList → List Nat
  | .nil => []
  | .cons h t => encodeTypeTag h ++ encodeTTElems t

end

mutual

/-- Constructible `TypeTag` values. -/
def validTypeTag : TypeTag → Bool
  | .Vector l => validTypeTagList l
  | .Struct s => validStructTag s
  | _ => true

/-- Constructible `StructTag` values: valid address, byte-string module and
name, valid type parameters. -/
def validStructTag : StructTag → Bool
  | .mk a m n tps => validAddress a && isBytes m && isBytes n && validTypeTagList tps

/-- Every element is constructible. -/
def validTypeTagList : TypeTagList → Bool
  | .nil => true
  | .cons h t => validTypeTag h && validTypeTagList t

end

mutual

/-- Nesting depth of a type tag (drives the decoder fuel). -/
def ttDepth : TypeTag → Nat
  | .Vector l => 1 + ttlDepth l
  | .Struct (.mk _ _ _ tps) => 1 + ttlDepth tps
  | _ => 1

/-- Maximum nesting depth over the elements. -/
def ttlDepth : TypeTagList → Nat
  | .nil => 0
  | .cons h t => max (ttDepth h) (ttlDepth t)

end

mutual

/-- Fuelled `TypeTag` decoder: ULEB128 variant index, then the payload; an
out-of-range index is an error. -/
def decodeTypeTagF : Nat → Dec TypeTag
  | 0, _ => .error "DecodeError: recursion limit"
  | fuel + 1, input =>
    match ulebDecode input with
    | .error e => .error e
    | .ok (idx, r) =>
      if idx = 0 then .ok (.Bool, r)
      else if idx = 1 then .ok (.U8, r)
      else if idx = 2 then .ok (.U64, r)
      else if idx = 3 then .ok (.U128, r)
      else if idx = 4 then .ok (.Address, r)
      else if idx = 5 then .ok (.Signer, r)
      else if idx = 6 then
        match decodeTypeTagSeqF fuel r with
        | .ok (l, r2) => .ok (.Vector l, r2)
        | .error e => .error e
      else if idx = 7 then
        match decodeStructTagF fuel r with
        | .ok (s, r2) => .ok (.Struct s, r2)
        | .error e => .error e
      else if idx = 8 then .ok (.U16, r)
      else if idx = 9 then .ok (.U32, r)
      else if idx = 10 then .ok (.U256, r)
      else .error "IndexError: enum variant index out of range"
termination_by fuel input => (fuel, 0, 0)

/-- Fuelled `StructTag` decoder: fields in declared order. -/
def decodeStructTagF : Nat → Dec StructTag
  | fuel, input =>
    match decodeAddress input with
    | .error e => .error e
    | .ok (a, r1) =>
      match decodeStr r1 with
      | .error e => .error e
      | .ok (m, r2) =>
        match decodeStr r2 with
        | .error e => .error e
        | .ok (n, r3) =>
          match decodeTypeTagSeqF fuel r3 with
          | .ok (tps, r4) => .ok (.mk a m n tps, r4)
          | .error e => .error e
termination_by fuel input => (fuel, 3, 0)

/-- Fuelled type-tag sequence decoder: ULEB128 count then the elements. -/
def decodeTypeTagSeqF : Nat → Dec TypeTagList
  | fuel, input =>
    match ulebDecode input with
    | .ok (n, r) => decodeTTElemsF fuel n r
    | .error e => .error e
termination_by fuel input => (fuel, 2, 0)

/-- Decode exactly `n` type tags. -/
def decodeTTElemsF : Nat → Nat → Dec TypeTagList
  | _, 0, input => .ok (.nil, input)
  | fuel, n + 1, input =>
    match decodeTypeTagF fuel input with
    | .error e => .error e
    | .ok (x, r) =>
      match decodeTTElemsF fuel n r with
      | .ok (xs, r2) => .ok (.cons x xs, r2)
      | .error e => .error e
termination_by fuel n input => (fuel, 1, n)

end

/-- The `address` field of a `StructTag`. -/
def StructTag.address : StructTag → Address
  | .mk a _ _ _ => a

/-- The `module` field of a `StructTag`. -/
def StructTag.module : StructTag → List Nat
  | .mk _ m _ _ => m

/-- The `name` field of a `StructTag`. -/
def StructTag.name : StructTag → List Nat
  | .mk _ _ n _ => n

/-- The `type_parameters` field of a `StructTag`. -/
def StructTag.type_parameters : StructTag → TypeTagList
  | .mk _ _ _ tps => tps

/-- The `TypeTag` decoding entry point (fuel defaulted from the input length). -/
def decodeTypeTag : Dec TypeTag := fun input => decodeTypeTagF (input.length + 1) input

/-- The `StructTag` decoding entry point (fuel defaulted from the input length). -/
def decodeStructTag : Dec StructTag := fun input => decodeStructTagF (input.length + 1) input

/-- The `Uint8` encoding: one little-endian byte. -/
def encodeU8 (n : Nat) : List Nat := uintEncodeLE 1 n

/-- The `Uint8` decoding. -/
def decodeU8 : Dec Nat := uintDecodeLE 1

/-- The `Uint16` encoding: two little-endian bytes. -/
def encodeU16 (n : Nat) : List Nat := uintEncodeLE 2 n

/-- The `Uint16` decoding. -/
def decodeU16 : Dec Nat := uintDecodeLE 2

/-- The `Uint64` encoding: eight little-endian bytes. -/
def encodeU64 (n : Nat) : List Nat := uintEncodeLE 8 n

/-- The `Uint64` decoding. -/
def decodeU64 : Dec Nat := uintDecodeLE 8

/-- A `[Uint8]` field: length-prefixed byte sequence. -/
def encodeBytesSeq (bs : List Nat) : List Nat := encodeSeqWith encodeU8 bs

/-- Decoding of a length-prefixed byte sequence. -/
def decodeBytesSeq : Dec (List Nat) := decodeSeqWith decodeU8

/-- The `BuilderArg` (bcs.py line 75): the builder-side key for transaction
inputs, declared as Object(Address) / Pure([u8]) / ForcedNonUniquePure. -/
inductive BuilderArg where
  | Object (payload : Address)
  | Pure (payload : List Nat)
  | ForcedNonUniquePure
  deriving Repr, DecidableEq

/-- Constructible `BuilderArg` values. -/
def validBuilderArg : BuilderArg → Bool
  | .Object a => validAddress a
  | .Pure bs => isBytes bs
  | .ForcedNonUniquePure => true

/-- The `BuilderArg` encoding: declaration-order variant index then payload. -/
def encodeBuilderArg : BuilderArg → List Nat
  | .Object a => ulebEncode 0 ++ encodeAddress a
  | .Pure bs => ulebEncode 1 ++ encodeBytesSeq bs
  | .ForcedNonUniquePure => ulebEncode 2

/-- The `BuilderArg` decoding. -/
def decodeBuilderArg : Dec BuilderArg := fun input =>
  match ulebDecode input with
  | .error e => .error e
  | .ok (idx, r) =>
    if idx = 0 then
      match decodeAddress r with
      | .ok (a, r2) => .ok (.Object a, r2)
      | .error e => .error e
    else if idx = 1 then
      match decodeBytesSeq r with
      | .ok (bs, r2) => .ok (.Pure bs, r2)
      | .error e => .error e
    else if idx = 2 then .ok (.ForcedNonUniquePure, r)
    else .error "IndexError: enum variant index out of range"

/-- The `ObjectReference` (bcs.py line 87). -/
structure ObjectReference where
  ObjectID : Address
  SequenceNumber : Nat
  ObjectDigest : Digest
  deriving Repr, DecidableEq

/-- Constructible `ObjectReference` values (sequence number is a u64). -/
def validObjectReference (o : ObjectReference) : Bool :=
  validAddress o.ObjectID && decide (o.SequenceNumber < 2 ^ 64) && validDigest o.ObjectDigest

/-- The `ObjectReference` encoding: fields in declared order. -/
def encodeObjectReference (o : ObjectReference) : List Nat :=
  encodeAddress o.ObjectID ++ (encodeU64 o.SequenceNumber ++ encodeDigest o.ObjectDigest)

/-- The `ObjectReference` decoding. -/
def decodeObjectReference : Dec ObjectReference := fun input =>
  match decodeAddress input with
  | .error e => .error e
  | .ok (a, r1) =>
    match decodeU64 r1 with
    | .error e => .error e
    | .ok (sq, r2) =>
      match decodeDigest r2 with
      | .ok (d, r3) => .ok (⟨a, sq, d⟩, r3)
      | .error e => .error e

/-- The `SharedObjectReference` (bcs.py line 110). -/
structure SharedObjectReference where
  ObjectID : Address
  SequenceNumber : Nat
  Mutable : Bool
  deriving Repr, DecidableEq

/-- Constructible `SharedObjectReference` values. -/
def validSharedObjectReference (o : SharedObjectReference) : Bool :=
  validAddress o.ObjectID && decide (o.SequenceNumber < 2 ^ 64)

/-- The `SharedObjectReference` encoding: fields in declared order. -/
def encodeSharedObjectReference (o : SharedObjectReference) : List Nat :=
  encodeAddress o.ObjectID ++ (encodeU64 o.SequenceNumber ++ encodeBool o.Mutable)

/-- The `SharedObjectReference` decoding. -/
def decodeSharedObjectReference : Dec SharedObjectReference := fun input =>
  match decodeAddress input with
  | .error e => .error e
  | .ok (a, r1) =>
    match decodeU64 r1 with
    | .error e => .error e
    | .ok (sq, r2) =>
      match decodeBool r2 with
      | .ok (mu, r3) => .ok (⟨a, sq, mu⟩, r3)
      | .error e => .error e

/-- The `OptionalU64` (bcs.py line 132): optional u64 with a one-byte flag. -/
def encodeOptionalU64 : Option Nat → List Nat
  | none => [0]
  | some v => 1 :: encodeU64 v

/-- Constructible `OptionalU64` values. -/
def validOptionalU64 : Option Nat → Bool
  | none => true
  | some v => decide (v < 2 ^ 64)

/-- The `OptionalU64` decoding: flag byte then the value if present. -/
def decodeOptionalU64 : Dec (Option Nat)
  | [] => .error "DecodeError: unexpected end of input"
  | b :: r =>
    if b = 1 then
      match decodeU64 r with
      | .ok (v, r2) => .ok (some v, r2)
      | .error e => .error e
    else if b = 0 then .ok (none, r)
    else .error "DecodeError: invalid optional flag"

/-- The `ObjectArg` (bcs.py line 251). -/
inductive ObjectArg where
  | ImmOrOwnedObject (payload : ObjectReference)
  | SharedObject (payload : SharedObjectReference)
  deriving Repr, DecidableEq

/-- Constructible `ObjectArg` values. -/
def validObjectArg : ObjectArg → Bool
  | .ImmOrOwnedObject o => validObjectReference o
  | .SharedObject o => validSharedObjectReference o

/-- The `ObjectArg` encoding. -/
def encodeObjectArg : ObjectArg → List Nat
  | .ImmOrOwnedObject o => ulebEncode 0 ++ encodeObjectReference o
  | .SharedObject o => ulebEncode 1 ++ encodeSharedObjectReference o

/-- The `ObjectArg` decoding. -/
def decodeObjectArg : Dec ObjectArg := fun input =>
  match ulebDecode input with
  | .error e => .error e
  | .ok (idx, r) =>
    if idx = 0 then
      match decodeObjectReference r with
      | .ok (o, r2) => .ok (.ImmOrOwnedObject o, r2)
      | .error e => .error e
    else if idx = 1 then
      match decodeSharedObjectReference r with
      | .ok (o, r2) => .ok (.SharedObject o, r2)
      | .error e => .error e
    else .error "IndexError: enum variant index out of range"

/-- The `CallArg` (bcs.py line 257): the wire form of a transaction input. -/
inductive CallArg where
  | Pure (payload : List Nat)
  | Object (payload : ObjectArg)
  deriving Repr, DecidableEq

/-- Constructible `CallArg` values. -/
def validCallArg : CallArg → Bool
  | .Pure bs => isBytes bs
  | .Object o => validObjectArg o

/-- The `CallArg` encoding. -/
def encodeCallArg : CallArg → List Nat
  | .Pure bs => ulebEncode 0 ++ encodeBytesSeq bs
  | .Object o => ulebEncode 1 ++ encodeObjectArg o

/-- The `CallArg` decoding. -/
def decodeCallArg : Dec CallArg := fun input =>
  match ulebDecode input with
  | .error e => .error e
  | .ok (idx, r) =>
    if idx = 0 then
      match decodeBytesSeq r with
      | .ok (bs, r2) => .ok (.Pure bs, r2)
      | .error e => .error e
    else if idx = 1 then
      match decodeObjectArg r with
      | .ok (o, r2) => .ok (.Object o, r2)
      | .error e => .error e
    else .error "IndexError: enum variant index out of range"

/-- The `GasData` (bcs.py line 266). -/
structure GasData where
  Payment : List ObjectReference
  Owner : Address
  Price : Nat
  Budget : Nat
  deriving Repr, DecidableEq

/-- Constructible `GasData` values. -/
def validGasData (g : GasData) : Bool :=
  g.Payment.all validObjectReference && validAddress g.Owner &&
    decide (g.Price < 2 ^ 64) && decide (g.Budget < 2 ^ 64)

/-- The `GasData` encoding: fields in declared order. -/
def encodeGasData (g : GasData) : List Nat :=
  encodeSeqWith encodeObjectReference g.Payment ++
    (encodeAddress g.Owner ++ (encodeU64 g.Price ++ encodeU64 g.Budget))

/-- The `GasData` decoding. -/
def decodeGasData : Dec GasData := fun input =>
  match decodeSeqWith decodeObjectReference input with
  | .error e => .error e
  | .ok (pay, r1) =>
    match decodeAddress r1 with
    | .error e => .error e
    | .ok (ow, r2) =>
      match decodeU64 r2 with
      | .error e => .error e
      | .ok (pr, r3) =>
        match decodeU64 r3 with
        | .ok (bu, r4) => .ok (⟨pay, ow, pr, bu⟩, r4)
        | .error e => .error e

/-- The `Argument` (bcs.py line 277): a reference to an input or a prior
command output. -/
inductive Argument where
  | GasCoin
  | Input (payload : Nat)
  | Result (payload : Nat)
  | NestedResult (payload : Nat × Nat)
  deriving Repr, DecidableEq

/-- Constructible `Argument` values (payloads are u16). -/
def validArgument : Argument → Bool
  | .GasCoin => true
  | .Input v => decide (v < 2 ^ 16)
  | .Result v => decide (v < 2 ^ 16)
  | .NestedResult (a, b) => decide (a < 2 ^ 16) && decide (b < 2 ^ 16)

/-- The `Argument` encoding; the `NestedResult` tuple encodes as the two u16
fields concatenated with no prefix. -/
def encodeArgument : Argument → List Nat
  | .GasCoin => ulebEncode 0
  | .Input v => ulebEncode 1 ++ encodeU16 v
  | .Result v => ulebEncode 2 ++ encodeU16 v
  | .NestedResult (a, b) => ulebEncode 3 ++ (encodeU16 a ++ encodeU16 b)

/-- The `Argument` decoding. -/
def decodeArgument : Dec Argument := fun input =>
  match ulebDecode input with
  | .error e => .error e
  | .ok (idx, r) =>
    if idx = 0 then .ok (.GasCoin, r)
    else if idx = 1 then
      match decodeU16 r with
      | .ok (v, r2) => .ok (.Input v, r2)
      | .error e => .error e
    else if idx = 2 then
      match decodeU16 r with
      | .ok (v, r2) => .ok (.Result v, r2)
      | .error e => .error e
    else if idx = 3 then
      match decodeU16 r with
      | .error e => .error e
      | .ok (a, r2) =>
        match decodeU16 r2 with
        | .ok (b, r3) => .ok (.NestedResult (a, b), r3)
        | .error e => .error e
    else .error "IndexError: enum variant index out of range"

/-- The `OptionalTypeTag` (bcs.py line 288): flag byte then a `TypeTag`. -/
def encodeOptionalTypeTag : Option TypeTag → List Nat
  | none => [0]
  | some t => 1 :: encodeTypeTag t

/-- Constructible `OptionalTypeTag` values. -/
def validOptionalTypeTag : Option TypeTag → Bool
  | none => true
  | some t => validTypeTag t

/-- The `OptionalTypeTag` decoding. -/
def decodeOptionalTypeTag : Dec (Option TypeTag)
  | [] => .error "DecodeError: unexpected end of input"
  | b :: r =>
    if b = 1 then
      match decodeTypeTag r with
      | .ok (t, r2) => .ok (some t, r2)
      | .error e => .error e
    else if b = 0 then .ok (none, r)
    else .error "DecodeError: invalid optional flag"

/-- A `[TypeTag]` field: length-prefixed sequence of type tags. -/
def encodeTypeTagSeq (ts : List TypeTag) : List Nat := encodeSeqWith encodeTypeTag ts

/-- Decoding of a length-prefixed `TypeTag` sequence. -/
def decodeTypeTagSeq : Dec (List TypeTag) := decodeSeqWith decodeTypeTag

/-- An `[Argument]` field: length-prefixed sequence of arguments. -/
def encodeArgumentSeq (xs : List Argument) : List Nat := encodeSeqWith encodeArgument xs

/-- Decoding of a length-prefixed `Argument` sequence. -/
def decodeArgumentSeq : Dec (List Argument) := decodeSeqWith decodeArgument

/-- The `ProgrammableMoveCall` (bcs.py line 299). -/
structure ProgrammableMoveCall where
  Package : Address
  Module : List Nat
  Function : List Nat
  Type_Arguments : List TypeTag
  Arguments : List Argument
  deriving Repr, DecidableEq

/-- Constructible `ProgrammableMoveCall` values. -/
def validProgrammableMoveCall (m : ProgrammableMoveCall) : Bool :=
  validAddress m.Package && isBytes m.Module && isBytes m.Function &&
    m.Type_Arguments.all validTypeTag && m.Arguments.all validArgument

/-- The `ProgrammableMoveCall` encoding: fields in declared order. -/
def encodeProgrammableMoveCall (m : ProgrammableMoveCall) : List Nat :=
  encodeAddress m.Package ++ (encodeStr m.Module ++ (encodeStr m.Function ++
    (encodeTypeTagSeq m.Type_Arguments ++ encodeArgumentSeq m.Arguments)))

/-- The `ProgrammableMoveCall` decoding. -/
def decodeProgrammableMoveCall : Dec ProgrammableMoveCall := fun input =>
  match decodeAddress input with
  | .error e => .error e
  | .ok (p, r1) =>
    match decodeStr r1 with
    | .error e => .error e
    | .ok (mo, r2) =>
      match decodeStr r2 with
      | .error e => .error e
      | .ok (fn, r3) =>
        match decodeTypeTagSeq r3 with
        | .error e => .error e
        | .ok (tas, r4) =>
          match decodeArgumentSeq r4 with
          | .ok (ars, r5) => .ok (⟨p, mo, fn, tas, ars⟩, r5)
          | .error e => .error e

/-- The `TransferObjects` (bcs.py line 316). -/
structure TransferObjects where
  Objects : List Argument
  Address : Argument
  deriving Repr, DecidableEq

/-- Constructible `TransferObjects` values. -/
def validTransferObjects (t : TransferObjects) : Bool :=
  t.Objects.all validArgument && validArgument t.Address

/-- The `TransferObjects` encoding. -/
def encodeTransferObjects (t : TransferObjects) : List Nat :=
  encodeArgumentSeq t.Objects ++ encodeArgument t.Address

/-- The `TransferObjects` decoding. -/
def decodeTransferObjects : Dec TransferObjects := fun input =>
  match decodeArgumentSeq input with
  | .error e => .error e
  | .ok (objs, r1) =>
    match decodeArgument r1 with
    | .ok (ad, r2) => .ok (⟨objs, ad⟩, r2)
    | .error e => .error e

/-- The `SplitCoin` (bcs.py line 322). -/
structure SplitCoin where
  FromCoin : Argument
  Amount : List Argument
  deriving Repr, DecidableEq

/-- Constructible `SplitCoin` values. -/
def validSplitCoin (s : SplitCoin) : Bool :=
  validArgument s.FromCoin && s.Amount.all validArgument

/-- The `SplitCoin` encoding. -/
def encodeSplitCoin (s : SplitCoin) : List Nat :=
  encodeArgument s.FromCoin ++ encodeArgumentSeq s.Amount

/-- The `SplitCoin` decoding. -/
def decodeSplitCoin : Dec SplitCoin := fun input =>
  match decodeArgument input with
  | .error e => .error e
  | .ok (fc, r1) =>
    match decodeArgumentSeq r1 with
    | .ok (am, r2) => .ok (⟨fc, am⟩, r2)
    | .error e => .error e

/-- The `MergeCoins` (bcs.py line 328). -/
structure MergeCoins where
  ToCoin : Argument
  FromCoins : List Argument
  deriving Repr, DecidableEq

/-- Constructible `MergeCoins` values. -/
def validMergeCoins (m : MergeCoins) : Bool :=
  validArgument m.ToCoin && m.FromCoins.all validArgument

/-- The `MergeCoins` encoding. -/
def encodeMergeCoins (m : MergeCoins) : List Nat :=
  encodeArgument m.ToCoin ++ encodeArgumentSeq m.FromCoins

/-- The `MergeCoins` decoding. -/
def decodeMergeCoins : Dec MergeCoins := fun input =>
  match decodeArgument input with
  | .error e => .error e
  | .ok (tc, r1) =>
    match decodeArgumentSeq r1 with
    | .ok (fcs, r2) => .ok (⟨tc, fcs⟩, r2)
    | .error e => .error e

/-- A `[[Uint8]]` field: length-prefixed sequence of byte sequences. -/
def encodeModulesSeq (ms : List (List Nat)) : List Nat := encodeSeqWith encodeBytesSeq ms

/-- Decoding of a `[[Uint8]]` field. -/
def decodeModulesSeq : Dec (List (List Nat)) := decodeSeqWith decodeBytesSeq

/-- An `[Address]` field: length-prefixed sequence of addresses. -/
def encodeAddressSeq (xs : List Address) : List Nat := encodeSeqWith encodeAddress xs

/-- Decoding of an `[Address]` field. -/
def decodeAddressSeq : Dec (List Address) := decodeSeqWith decodeAddress

/-- The `Publish` (bcs.py line 334). -/
structure Publish where
  Modules : List (List Nat)
  Dependents : List Address
  deriving Repr, DecidableEq

/-- Constructible `Publish` values. -/
def validPublish (p : Publish) : Bool :=
  p.Modules.all isBytes && p.Dependents.all validAddress

/-- The `Publish` encoding. -/
def encodePublish (p : Publish) : List Nat :=
  encodeModulesSeq p.Modules ++ encodeAddressSeq p.Dependents

/-- The `Publish` decoding. -/
def decodePublish : Dec Publish := fun input =>
  match decodeModulesSeq input with
  | .error e => .error e
  | .ok (ms, r1) =>
    match decodeAddressSeq r1 with
    | .ok (ds, r2) => .ok (⟨ms, ds⟩, r2)
    | .error e => .error e

/-- The `MakeMoveVec` (bcs.py line 340). -/
structure MakeMoveVec where
  TypeTag : Option TypeTag
  Vector : List Argument
  deriving Repr, DecidableEq

/-- Constructible `MakeMoveVec` values. -/
def validMakeMoveVec (m : MakeMoveVec) : Bool :=
  validOptionalTypeTag m.TypeTag && m.Vector.all validArgument

/-- The `MakeMoveVec` encoding. -/
def encodeMakeMoveVec (m : MakeMoveVec) : List Nat :=
  encodeOptionalTypeTag m.TypeTag ++ encodeArgumentSeq m.Vector

/-- The `MakeMoveVec` decoding. -/
def decodeMakeMoveVec : Dec MakeMoveVec := fun input =>
  match decodeOptionalTypeTag input with
  | .error e => .error e
  | .ok (t, r1) =>
    match decodeArgumentSeq r1 with
    | .ok (v, r2) => .ok (⟨t, v⟩, r2)
    | .error e => .error e

/-- The `Upgrade` (bcs.py line 346). -/
structure Upgrade where
  Modules : List (List Nat)
  Dependents : List Address
  Package : Address
  UpgradeTicket : Argument
  deriving Repr, DecidableEq

/-- Constructible `Upgrade` values. -/
def validUpgrade (u : Upgrade) : Bool :=
  u.Modules.all isBytes && u.Dependents.all validAddress &&
    validAddress u.Package && validArgument u.UpgradeTicket

/-- The `Upgrade` encoding. -/
def encodeUpgrade (u : Upgrade) : List Nat :=
  encodeModulesSeq u.Modules ++ (encodeAddressSeq u.Dependents ++
    (encodeAddress u.Package ++ encodeArgument u.UpgradeTicket))

/-- The `Upgrade` decoding. -/
def decodeUpgrade : Dec Upgrade := fun input =>
  match decodeModulesSeq input with
  | .error e => .error e
  | .ok (ms, r1) =>
    match decodeAddressSeq r1 with
    | .error e => .error e
    | .ok (ds, r2) =>
      match decodeAddress r2 with
      | .error e => .error e
      | .ok (pk, r3) =>
        match decodeArgument r3 with
        | .ok (ut, r4) => .ok (⟨ms, ds, pk, ut⟩, r4)
        | .error e => .error e

/-- The `Command` (bcs.py line 357): the seven programmable-transaction command
variants in declared order. -/
inductive Command where
  | MoveCall (payload : ProgrammableMoveCall)
  | TransferObjects (payload : TransferObjects)
  | SplitCoin (payload : SplitCoin)
  | MergeCoins (payload : MergeCoins)
  | Publish (payload : Publish)
  | MakeMoveVec (payload : MakeMoveVec)
  | Upgrade (payload : Upgrade)
  deriving Repr, DecidableEq

/-- Constructible `Command` values. -/
def validCommand : Command → Bool
  | .MoveCall m => validProgrammableMoveCall m
  | .TransferObjects t => validTransferObjects t
  | .SplitCoin s => validSplitCoin s
  | .MergeCoins m => validMergeCoins m
  | .Publish p => validPublish p
  | .MakeMoveVec m => validMakeMoveVec m
  | .Upgrade u => validUpgrade u

/-- The `Command` encoding: declaration-order variant index then payload. -/
def encodeCommand : Command → List Nat
  | .MoveCall m => ulebEncode 0 ++ encodeProgrammableMoveCall m
  | .TransferObjects t => ulebEncode 1 ++ encodeTransferObjects t
  | .SplitCoin s => ulebEncode 2 ++ encodeSplitCoin s
  | .MergeCoins m => ulebEncode 3 ++ encodeMergeCoins m
  | .Publish p => ulebEncode 4 ++ encodePublish p
  | .MakeMoveVec m => ulebEncode 5 ++ encodeMakeMoveVec m
  | .Upgrade u => ulebEncode 6 ++ encodeUpgrade u

/-- The `Command` decoding. -/
def decodeCommand : Dec Command := fun input =>
  match ulebDecode input with
  | .error e => .error e
  | .ok (idx, r) =>
    if idx = 0 then
      match decodeProgrammableMoveCall r with
      | .ok (m, r2) => .ok (.MoveCall m, r2)
      | .error e => .error e
    else if idx = 1 then
      match decodeTransferObjects r with
      | .ok (t, r2) => .ok (.TransferObjects t, r2)
      | .error e => .error e
    else if idx = 2 then
      match decodeSplitCoin r with
      | .ok (s, r2) => .ok (.SplitCoin s, r2)
      | .error e => .error e
    else if idx = 3 then
      match decodeMergeCoins r with
      | .ok (m, r2) => .ok (.MergeCoins m, r2)
      | .error e => .error e
    else if idx = 4 then
      match decodePublish r with
      | .ok (p, r2) => .ok (.Publish p, r2)
      | .error e => .error e
    else if idx = 5 then
      match decodeMakeMoveVec r with
      | .ok (m, r2) => .ok (.MakeMoveVec m, r2)
      | .error e => .error e
    else if idx = 6 then
      match decodeUpgrade r with
      | .ok (u, r2) => .ok (.Upgrade u, r2)
      | .error e => .error e
    else .error "IndexError: enum variant index out of range"

/-- The `ProgrammableTransaction` (bcs.py line 371): ordered inputs and
commands; the command field is named `Command` in the source. -/
structure ProgrammableTransaction where
  Inputs : List CallArg
  Command : List Command
  deriving Repr, DecidableEq

/-- Constructible `ProgrammableTransaction` values. -/
def validProgrammableTransaction (p : ProgrammableTransaction) : Bool :=
  p.Inputs.all validCallArg && p.Command.all validCommand

/-- The `ProgrammableTransaction` encoding. -/
def encodeProgrammableTransaction (p : ProgrammableTransaction) : List Nat :=
  encodeSeqWith encodeCallArg p.Inputs ++ encodeSeqWith encodeCommand p.Command

/-- The `ProgrammableTransaction` decoding. -/
def decodeProgrammableTransaction : Dec ProgrammableTransaction := fun input =>
  match decodeSeqWith decodeCallArg input with
  | .error e => .error e
  | .ok (ins, r1) =>
    match decodeSeqWith decodeCommand r1 with
    | .ok (cs, r2) => .ok (⟨ins, cs⟩, r2)
    | .error e => .error e

/-- The `TransactionKind` (bcs.py line 377). -/
inductive TransactionKind where
  | ProgrammableTransaction (payload : ProgrammableTransaction)
  | ChangeEpoch
  | Genesis
  | ConsensusCommitPrologue
  deriving Repr, DecidableEq

/-- Constructible `TransactionKind` values. -/
def validTransactionKind : TransactionKind → Bool
  | .ProgrammableTransaction p => validProgrammableTransaction p
  | _ => true

/-- The `TransactionKind` encoding. -/
def encodeTransactionKind : TransactionKind → List Nat
  | .ProgrammableTransaction p => ulebEncode 0 ++ encodeProgrammableTransaction p
  | .ChangeEpoch => ulebEncode 1
  | .Genesis => ulebEncode 2
  | .ConsensusCommitPrologue => ulebEncode 3

/-- The `TransactionKind` decoding. -/
def decodeTransactionKind : Dec TransactionKind := fun input =>
  match ulebDecode input with
  | .error e => .error e
  | .ok (idx, r) =>
    if idx = 0 then
      match decodeProgrammableTransaction r with
      | .ok (p, r2) => .ok (.ProgrammableTransaction p, r2)
      | .error e => .error e
    else if idx = 1 then .ok (.ChangeEpoch, r)
    else if idx = 2 then .ok (.Genesis, r)
    else if idx = 3 then .ok (.ConsensusCommitPrologue, r)
    else .error "IndexError: enum variant index out of range"

/-- The `TransactionExpiration` (bcs.py line 400). -/
inductive TransactionExpiration where
  | None
  | Epoch (payload : Nat)
  deriving Repr, DecidableEq

/-- Constructible `TransactionExpiration` values. -/
def validTransactionExpiration : TransactionExpiration → Bool
  | .None => true
  | .Epoch v => decide (v < 2 ^ 64)

/-- The `TransactionExpiration` encoding. -/
def encodeTransactionExpiration : TransactionExpiration → List Nat
  | .None => ulebEncode 0
  | .Epoch v => ulebEncode 1 ++ encodeU64 v

/-- The `TransactionExpiration` decoding. -/
def decodeTransactionExpiration : Dec TransactionExpiration := fun input =>
  match ulebDecode input with
  | .error e => .error e
  | .ok (idx, r) =>
    if idx = 0 then .ok (.None, r)
    else if idx = 1 then
      match decodeU64 r with
      | .ok (v, r2) => .ok (.Epoch v, r2)
      | .error e => .error e
    else .error "IndexError: enum variant index out of range"

/-- The `TransactionDataV1` (bcs.py line 406). -/
structure TransactionDataV1 where
  TransactionKind : TransactionKind
  Sender : Address
  GasData : GasData
  TransactionExpiration : TransactionExpiration
  deriving Repr, DecidableEq

/-- Constructible `TransactionDataV1` values. -/
def validTransactionDataV1 (t : TransactionDataV1) : Bool :=
  validTransactionKind t.TransactionKind && validAddress t.Sender &&
    validGasData t.GasData && validTransactionExpiration t.TransactionExpiration

/-- The `TransactionDataV1` encoding: fields in declared order. -/
def encodeTransactionDataV1 (t : TransactionDataV1) : List Nat :=
  encodeTransactionKind t.TransactionKind ++ (encodeAddress t.Sender ++
    (encodeGasData t.GasData ++ encodeTransactionExpiration t.TransactionExpiration))

/-- The `TransactionDataV1` decoding. -/
def decodeTransactionDataV1 : Dec TransactionDataV1 := fun input =>
  match decodeTransactionKind input with
  | .error e => .error e
  | .ok (k, r1) =>
    match decodeAddress r1 with
    | .error e => .error e
    | .ok (s, r2) =>
      match decodeGasData r2 with
      | .error e => .error e
      | .ok (g, r3) =>
        match decodeTransactionExpiration r3 with
        | .ok (x, r4) => .ok (⟨k, s, g, x⟩, r4)
        | .error e => .error e

/-- The `TransactionData` (bcs.py line 417): single-variant envelope. -/
inductive TransactionData where
  | V1 (payload : TransactionDataV1)
  deriving Repr, DecidableEq

/-- Constructible `TransactionData` values. -/
def validTransactionData : TransactionData → Bool
  | .V1 t => validTransactionDataV1 t

/-- The `TransactionData` encoding. -/
def encodeTransactionData : TransactionData → List Nat
  | .V1 t => ulebEncode 0 ++ encodeTransactionDataV1 t

/-- The `TransactionData` decoding. -/
def decodeTransactionData : Dec TransactionData := fun input =>
  match ulebDecode input with
  | .error e => .error e
  | .ok (idx, r) =>
    if idx = 0 then
      match decodeTransactionDataV1 r with
      | .ok (t, r2) => .ok (.V1 t, r2)
      | .error e => .error e
    else .error "IndexError: enum variant index out of range"

/-!
Textual parsing helpers.  A Python `str` is modelled by the list of its
character code points (every literal in the source is ASCII, so these
coincide with its UTF-8 bytes).
-/

/-- The code-point list of a string literal. -/
def pystr (s : String) : List Nat := s.data.map Char.toNat

/-- Python `value.split("::")`: non-overlapping, left to right. -/
def splitColons : List Nat → List (List Nat)
  | [] => [[]]
  | 58 :: 58 :: rest => [] :: splitColons rest
  | c :: rest =>
    match splitColons rest with
    | s :: ss => (c :: s) :: ss
    | [] => [[c]]

/-- Python `value.count("::")`: non-overlapping count, left to right. -/
def countColons : List Nat → Nat
  | [] => 0
  | 58 :: 58 :: rest => 1 + countColons rest
  | _ :: rest => countColons rest

/-- The token "vector". -/
def vectorTok : List Nat := pystr "vector"

/-- Python `value.count("vector")`: non-overlapping count, left to right. -/
def countVector (l : List Nat) : Nat :=
  match l with
  | [] => 0
  | c :: rest =>
    if vectorTok.isPrefixOf (c :: rest) then 1 + countVector ((c :: rest).drop 6)
    else countVector rest
termination_by l.length
decreasing_by
  · simp
    omega
  · simp

/-- First index of a byte (Python `str.index` / `find` for one character),
or none when absent. -/
def findIdxOfByte (b : Nat) : List Nat → Option Nat
  | [] => none
  | c :: rest => if c = b then some 0 else (findIdxOfByte b rest).map (· + 1)

/-- Last index of a byte (Python `str.rfind` for one character), or none
when absent (Python returns -1). -/
def rfindIdxOfByte (b : Nat) : List Nat → Option Nat
  | [] => none
  | c :: rest =>
    match rfindIdxOfByte b rest with
    | some i => some (i + 1)
    | none => if c = b then some 0 else none

/-- Python slice `value[start:stop]` for nonnegative bounds. -/
def pySlice (l : List Nat) (start stop : Nat) : List Nat := (l.drop start).take (stop - start)

/-- Modelled from the spec: `hexstring_to_list` (pysui.sui.sui_utils, not
under src/). The textual form of an address is hex with an optional "0x"
prefix (§3); malformed hex fails immediately with a value error (§7). The
digit value of one hex character. -/
def hexDigit (c : Nat) : Option Nat :=
  if 48 ≤ c ∧ c ≤ 57 then some (c - 48)
  else if 97 ≤ c ∧ c ≤ 102 then some (c - 87)
  else if 65 ≤ c ∧ c ≤ 70 then some (c - 55)
  else none

/-- Pack hex-digit values two at a time into bytes. -/
def hexPairsToBytes : List Nat → List Nat
  | hi :: lo :: rest => (hi * 16 + lo) :: hexPairsToBytes rest
  | _ => []

/-- Modelled from the spec: `Address.from_str` via `hexstring_to_list`
(pysui.sui.sui_utils, not under src/): strip an optional 0x/0X prefix,
require hex digits (at most 64), left-pad to 64 digits and pack into the
32-byte address. -/
def addressFromStr (s : List Nat) : Except String Address :=
  let body :=
    if (pystr "0x").isPrefixOf s then s.drop 2
    else if (pystr "0X").isPrefixOf s then s.drop 2
    else s
  match body.mapM hexDigit with
  | none => .error "ValueError: invalid hex string"
  | some ds =>
    if ds.length ≤ 64 then .ok ⟨hexPairsToBytes (List.replicate (64 - ds.length) 0 ++ ds)⟩
    else .error "ValueError: invalid hex string"

/-- The base58 alphabet. -/
def b58Alphabet : List Nat :=
  pystr "123456789ABCDEFGHJKLMNPQRSTUVWXYZabcdefghijkmnopqrstuvwxyz"

/-- Big-endian minimal byte representation of a natural number; the `fuel`
argument only forces structural termination and is always supplied large
enough below. -/
def natToBytesBEAux (fuel n : Nat) : List Nat :=
  match fuel with
  | 0 => []
  | f + 1 => if n = 0 then [] else natToBytesBEAux f (n / 256) ++ [n % 256]

/-- Big-endian minimal byte representation of a natural number. -/
def natToBytesBE (n : Nat) : List Nat := natToBytesBEAux n n

/-- Count of leading occurrences of a byte. -/
def countLeading (b : Nat) : List Nat → Nat
  | [] => 0
  | c :: rest => if c = b then 1 + countLeading b rest else 0

/-- Modelled from the spec: `b58str_to_list` (pysui.sui.sui_utils, not
under src/): digests read from text are base58 decoded into raw bytes
(§3); each leading one character contributes one leading zero byte. -/
def b58Decode (s : List Nat) : Except String (List Nat) :=
  match s.mapM (fun c => findIdxOfByte c b58Alphabet) with
  | none => .error "ValueError: invalid base58 string"
  | some ds =>
    let value := ds.foldl (fun acc d => acc * 58 + d) 0
    .ok (List.replicate (countLeading 49 s) 0 ++ natToBytesBE value)

/-- The `Digest.from_str` (bcs.py line 63): base58 decode, then the canoser
fixed-length check (32 bytes) at construction. -/
def digestFromStr (s : List Nat) : Except String Digest :=
  match b58Decode s with
  | .ok bs => if bs.length = 32 then .ok ⟨bs⟩ else .error "TypeError: wrong digest length"
  | .error e => .error e

/-- The `StructTag.from_type_str` (bcs.py lines 231-243): requires exactly two
"::" separators, then parses the address segment and yields module, name
and an empty type-parameter list. -/
def from_type_str (s : List Nat) : Except String StructTag :=
  if countColons s = 2 then
    match splitColons s with
    | [a, m, n] =>
      match addressFromStr a with
      | .ok ad => .ok (.mk ad m n .nil)
      | .error e => .error e
    | _ => .error "ValueError: Ill formed type_argument"
  else .error "ValueError: Ill formed type_argument"

/-- The lowercase scalar spellings (bcs.py line 169). -/
def lcaseScalars : List (List Nat) :=
  [pystr "bool", pystr "u8", pystr "u16", pystr "u32", pystr "u64", pystr "u128", pystr "u256"]

/-- The capitalized scalar spellings (bcs.py line 170); note the source
fifth entry is the misspelling "uU28", not "U128". -/
def ucaseScalars : List (List Nat) :=
  [pystr "Bool", pystr "U8", pystr "U16", pystr "U32", pystr "U64", pystr "uU28", pystr "U256"]

/-- Python `list.index(x)` (first index), as an option. -/
def pyIndexOf (x : List Nat) : List (List Nat) → Option Nat
  | [] => none
  | y :: ys => if y = x then some 0 else (pyIndexOf x ys).map (· + 1)

/-- canoser constructs an enum value from a variant name; a name that is
not a declared variant raises, and only payload-free variants accept the
default `None` payload (`TypeTag(name)`, canoser RustEnum). -/

def typeTagByName (s : List Nat) : Except String TypeTag :=
  if s = pystr "Bool" then .ok .Bool
  else if s = pystr "U8" then .ok .U8
  else if s = pystr "U64" then .ok .U64
  else if s = pystr "U128" then .ok .U128
  else if s = pystr "Address" then .ok .Address
  else if s = pystr "Signer" then .ok .Signer
  else if s = pystr "U16" then .ok .U16
  else if s = pystr "U32" then .ok .U32
  else if s = pystr "U256" then .ok .U256
  else .error "TypeError: not a valid enum name"

/-- The `range(vcount)` wrapping loop of `type_tag_from`: each iteration wraps
the current tag in a Vector variant carrying a singleton list. -/
def wrapVectors : Nat → TypeTag → TypeTag
  | 0, t => t
  | k + 1, t => wrapVectors k (.Vector (.cons t .nil))

/-- The `TypeTag.type_tag_from` (bcs.py lines 186-212), on the code points of
the input string: lowercase scalars (via the capitalized spelling table),
capitalized scalars, struct strings (more than two "::" segments),
address literals (0x/0X prefix), then vector strings (innermost <...>
slice wrapped `count("vector")` times), otherwise a value error. -/
def type_tag_from (value : List Nat) : Except String TypeTag :=
  match pyIndexOf value lcaseScalars with
  | some index =>
    match ucaseScalars.get? index with
    | some nm => typeTagByName nm
    | none => .error "IndexError: list index out of range"
  | none =>
    if value ∈ ucaseScalars then typeTagByName value
    else if (splitColons value).length > 2 then
      match from_type_str value with
      | .ok st => .ok (.Struct st)
      | .error e => .error e
    else if (pystr "0x").isPrefixOf value || (pystr "0X").isPrefixOf value then .ok .Address
    else if countVector value ≠ 0 then
      match hfind : findIdxOfByte 62 value with
      | none => .error "ValueError: substring not found"
      | some b =>
        let start :=
          match rfindIdxOfByte 60 value with
          | some a => a + 1
          | none => 0
        match type_tag_from (pySlice value start b) with
        | .ok inner => .ok (wrapVectors (countVector value) inner)
        | .error e => .error e
    else .error "ValueError: not a recognized TypeTag"
termination_by value.length
decreasing_by
  have hb : ∀ (l : List Nat) (i : Nat), findIdxOfByte 62 l = some i → i < l.length := by
    intro l
    induction l with
    | nil =>
      intro i h
      simp [findIdxOfByte] at h
    | cons c rest ih =>
      intro i h
      simp only [findIdxOfByte] at h
      by_cases hc : c = 62
      · rw [if_pos hc] at h
        injection h with h2
        simp [← h2]
      · rw [if_neg hc] at h
        cases hm : findIdxOfByte 62 rest with
        | none =>
          rw [hm] at h
          simp at h
        | some j =>
          rw [hm] at h
          simp at h
          have := ih j hm
          simp
          omega
  have hb2 := hb value b hfind
  simp [pySlice]
  omega

/-!
The constraint verifier (`_SuiTransactionBase.verify_transaction`,
pgql_txn_base.py lines 110-209).
-/

/-- Modelled from the spec: `TransactionConstraints`
(pysui.sui.sui_txresults.single_tx, not under src/): a flat record of named
numeric limits supplied by the protocol configuration, all fields
defaulting to zero; the verifier reuses a fresh instance as its violation
accumulator, where a zero field means "no violation recorded" (§3). The
source record also carries a `feature_dict` entry that
`verify_transaction` always pops from the violation mapping
(pgql_txn_base.py line 208), so it is omitted here. -/

structure TransactionConstraints where
  max_pure_argument_size : Nat := 0
  max_input_objects : Nat := 0
  max_arguments : Nat := 0
  max_type_arguments : Nat := 0
  max_num_transferred_move_object_ids : Nat := 0
  max_programmable_tx_commands : Nat := 0
  max_tx_size_bytes : Nat := 0
  deriving Repr, DecidableEq

/-- Modelled from the spec: the Transaction Assembler state read by the
verifier (§4.3; `ProgrammableTransactionBuilder` in
pysui.sui.sui_txn.transaction_builder, not under src/): the ordered
mapping from `BuilderArg` keys to `CallArg` inputs, the ordered command
list, and the per-command-kind frequency counter, of which
`verify_transaction` reads only the "MoveCall" entry. -/
structure Builder where
  inputs : List (BuilderArg × CallArg)
  commands : List Command
  moveCallFrequency : Nat

/-- The `_SuiTransactionBase` state read by `verify_transaction`
(pgql_txn_base.py lines 52-73): the builder, the constraints table, and
the current gas price. The class defines no `commands` attribute even
though line 173 reads `self.commands`. -/
structure SuiTransaction where
  builder : Builder
  constraints : TransactionConstraints
  current_gas_price : Nat

/-- The `_PAY_GAS` (pgql_txn_base.py line 50): the fixed placeholder gas
budget. -/
def PAY_GAS : Nat := 4000000

/-- Modelled from the spec: `raw_kind` via `builder.finish_for_inspect`
(§4.3): snapshot the accumulated inputs in first-insertion order and the
commands into a programmable-transaction kind. -/
def raw_kind (st : SuiTransaction) : TransactionKind :=
  .ProgrammableTransaction ⟨st.builder.inputs.map Prod.snd, st.builder.commands⟩

/-- The input-partition loop (lines 122-129): running maximum of the
lengths of Pure keys (`ilen if ilen > max else max`). -/
def maxPureInputs (keys : List BuilderArg) : Nat :=
  keys.foldl
    (fun acc k =>
      match k with
      | .Pure bs => if bs.length > acc then bs.length else acc
      | _ => acc)
    0

/-- The input-partition loop (lines 122-129): every key whose variant is
not "Pure" is collected as an object input (this includes
ForcedNonUniquePure keys). -/
def objInputKeys (keys : List BuilderArg) : List BuilderArg :=
  keys.filter
    (fun k =>
      match k with
      | .Pure _ => false
      | _ => true)

/-- Per-command argument count (lines 145-160). The source `match` has a
silent default arm, but `Command` declares exactly these seven variants,
so every command is covered. -/
def argsOne : Command → Nat
  | .MoveCall m => m.Arguments.length
  | .TransferObjects t => t.Objects.length
  | .MergeCoins m => m.FromCoins.length
  | .SplitCoin s => s.Amount.length
  | .MakeMoveVec m => m.Vector.length
  | .Publish p => p.Modules.length
  | .Upgrade u => u.Modules.length

/-- Per-command type-argument count (lines 145-160): only MoveCall
contributes. -/
def typeArgsOne : Command → Nat
  | .MoveCall m => m.Type_Arguments.length
  | _ => 0

/-- The command loop (lines 140-165): updates the `max_arguments` and
`max_type_arguments` accumulator slots whenever a command exceeds the
corresponding limit (so the last offender wins) and sums the argument
counts. -/
def argsCheck (cmds : List Command) (cons : TransactionConstraints)
    (r : TransactionConstraints) : TransactionConstraints × Nat :=
  cmds.foldl
    (fun (acc : TransactionConstraints × Nat) cmd =>
      let args_one := argsOne cmd
      let type_args_one := typeArgsOne cmd
      let r1 :=
        if args_one > cons.max_arguments then { acc.1 with max_arguments := args_one }
        else acc.1
      let r2 :=
        if type_args_one > cons.max_type_arguments then
          { r1 with max_type_arguments := type_args_one }
        else r1
      (r2, acc.2 + args_one))
    (r, 0)

/-- The violation mapping (lines 206-208): the accumulator fields with
their limit names, keeping only nonzero observed values (`feature_dict`
is popped unconditionally and never appears). -/
def errDict (r : TransactionConstraints) : List (String × Nat) :=
  ([("max_pure_argument_size", r.max_pure_argument_size),
    ("max_input_objects", r.max_input_objects),
    ("max_arguments", r.max_arguments),
    ("max_type_arguments", r.max_type_arguments),
    ("max_num_transferred_move_object_ids", r.max_num_transferred_move_object_ids),
    ("max_programmable_tx_commands", r.max_programmable_tx_commands),
    ("max_tx_size_bytes", r.max_tx_size_bytes)]).filter
    (fun kv => kv.2 ≠ 0)

/-- The fixed placeholder digest string (line 190). -/
def placeholderDigestStr : List Nat :=
  pystr "ByumsdYUAQWJfwYgowsme7hm5vE8d2mXik3rGaNC9R4W"

/-- The synthesized placeholder transaction envelope (lines 177-200): zero
address as sender and gas owner, one zero-version gas payment with the
fixed placeholder digest, the caller gas price, the fixed budget. -/
def fauxTransactionData (st : SuiTransaction) : Except String TransactionData :=
  match addressFromStr (pystr "0x0") with
  | .error e => .error e
  | .ok reuse_addy =>
    match digestFromStr placeholderDigestStr with
    | .error e => .error e
    | .ok dg =>
      .ok (.V1 ⟨raw_kind st, reuse_addy,
        ⟨[⟨reuse_addy, 0, dg⟩], reuse_addy, st.current_gas_price, PAY_GAS⟩, .None⟩)

/-- The accumulator state after the pure-size, object-count, per-command
and total-argument checks (lines 118-169), before the command-count
check. -/
def preCommandCheckAccum (st : SuiTransaction) : TransactionConstraints × Nat :=
  let keys := st.builder.inputs.map Prod.fst
  let max_pure_inputs := maxPureInputs keys
  let r0 : TransactionConstraints := {}
  let r1 :=
    if max_pure_inputs ≥ st.constraints.max_pure_argument_size then
      { r0 with max_pure_argument_size := max_pure_inputs }
    else r0
  let obj_count := (objInputKeys keys).length + st.builder.moveCallFrequency
  let r2 :=
    if obj_count > st.constraints.max_input_objects then
      { r1 with max_input_objects := obj_count }
    else r1
  let res := argsCheck st.builder.commands st.constraints r2
  let r3 :=
    if res.2 > st.constraints.max_num_transferred_move_object_ids then
      { res.1 with max_num_transferred_move_object_ids := res.2 }
    else res.1
  (r3, res.2)

/-- The size check and the final violation mapping (lines 203-209). -/
def finishVerify (st : SuiTransaction) (r : TransactionConstraints) (ser : List Nat) :
    Except String (TransactionConstraints × Option (List (String × Nat))) :=
  let r5 :=
    if ser.length > st.constraints.max_tx_size_bytes then
      { r with max_tx_size_bytes := ser.length }
    else r
  let d := errDict r5
  .ok (st.constraints, if d = [] then none else some d)

/-- The `verify_transaction` (pgql_txn_base.py lines 110-209). `ser_kind` is
the optional pre-serialized transaction bytes; the Python `if not ser_kind`
treats empty bytes like an absent argument. Exceptions are modelled as
`.error`: when the command count exceeds its limit, line 173 evaluates
`len(self.commands)` on an object with no `commands` attribute, raising
AttributeError. -/
def verify_transaction (st : SuiTransaction) (ser_kind : Option (List Nat)) :
    Except String (TransactionConstraints × Option (List (String × Nat))) :=
  if st.builder.commands.length > st.constraints.max_programmable_tx_commands then
    .error "AttributeError: _SuiTransactionBase object has no attribute commands"
  else
    match ser_kind with
    | some bs =>
      if bs = [] then
        match fauxTransactionData st with
        | .error e => .error e
        | .ok td => finishVerify st (preCommandCheckAccum st).1 (encodeTransactionData td)
      else finishVerify st (preCommandCheckAccum st).1 bs
    | none =>
      match fauxTransactionData st with
      | .error e => .error e
      | .ok td => finishVerify st (preCommandCheckAccum st).1 (encodeTransactionData td)

/-!  Claim theorems.  -/

/-- True exactly on Vector-variant type tags. -/
def isVectorTT : TypeTag → Bool
  | .Vector _ => true
  | _ => false

/-- An example valid 32-byte address. -/
def exampleAddress : Address := ⟨List.replicate 32 0⟩

/-- An example valid 32-byte digest. -/
def exampleDigest : Digest := ⟨List.replicate 32 1⟩

/-- An example transaction envelope exercising most schema types. -/
def exampleTransactionData : TransactionData :=
  .V1 ⟨.ProgrammableTransaction ⟨[.Pure [1, 2],
        .Object (.ImmOrOwnedObject ⟨exampleAddress, 3, exampleDigest⟩)],
      [.MoveCall ⟨exampleAddress, [99, 111], [102, 110],
        [.U8, .Vector (.cons .U64 .nil), .Struct (.mk exampleAddress [109] [83] .nil)],
        [.Input 0, .GasCoin]⟩,
       .MakeMoveVec ⟨some .Bool, [.Result 1]⟩]⟩,
    exampleAddress, ⟨[⟨exampleAddress, 0, exampleDigest⟩], exampleAddress, 1000, 4000000⟩,
    .Epoch 5⟩

/-- The spec description of the pure-size metric (§4.4 step 1): the
maximum over the lengths of the individual Pure inputs — not a cumulative
sum — zero when there are none. -/
def specMaxSinglePureLength (keys : List BuilderArg) : Nat :=
  (keys.filterMap
    (fun k =>
      match k with
      | .Pure bs => some bs.length
      | _ => none)).foldr max 0

theorem ulebDecode_encodeAux (fuel : Nat) : ∀ n rest, n ≤ fuel →
    ulebDecode (ulebEncodeAux fuel n ++ rest) = .ok (n, rest) := by
  induction fuel with
  | zero =>
    intro n rest h
    have hn : n = 0 := by omega
    subst hn
    simp [ulebEncodeAux, ulebDecode]
  | succ f ih =>
    intro n rest h
    by_cases hlt : n < 128
    · simp [ulebEncodeAux, hlt, ulebDecode]
    · have hrec := ih (n / 128) rest (by omega)
      simp only [ulebEncodeAux, if_neg hlt, List.cons_append, ulebDecode,
        if_neg (by omega : ¬ n % 128 + 128 < 128), hrec]
      congr 2
      omega

theorem ulebDecode_encode (n : Nat) (rest : List Nat) :
    ulebDecode (ulebEncode n ++ rest) = .ok (n, rest) :=
  ulebDecode_encodeAux n n rest (Nat.le_refl n)

theorem uintDecodeLE_encode (w n : Nat) (rest : List Nat) (h : n < 256 ^ w) :
    uintDecodeLE w (uintEncodeLE w n ++ rest) = .ok (n, rest) := by
  induction w generalizing n with
  | zero =>
    simp [uintEncodeLE, uintDecodeLE]
    omega
  | succ w ih =>
    have hlt : n / 256 < 256 ^ w := by
      have : (256 : Nat) ^ (w + 1) = 256 ^ w * 256 := by ring
      rw [Nat.div_lt_iff_lt_mul (by omega)]
      omega
    simp only [uintEncodeLE, uintDecodeLE, List.cons_append, ih (n / 256) hlt]
    congr 2
    omega

theorem readBytes_exact (bs rest : List Nat) :
    readBytes bs.length (bs ++ rest) = .ok (bs, rest) := by
  induction bs with
  | nil => simp [readBytes]
  | cons b bs ih => simp [readBytes, ih]

theorem decodeListN_encode (dec : Dec α) (enc : α → List Nat) (xs : List α) (rest : List Nat)
    (h : ∀ x ∈ xs, ∀ r, dec (enc x ++ r) = .ok (x, r)) :
    decodeListN dec xs.length ((xs.map enc).flatten ++ rest) = .ok (xs, rest) := by
  induction xs with
  | nil => simp [decodeListN]
  | cons x xs ih =>
    have hx := h x (by simp) ((xs.map enc).flatten ++ rest)
    simp only [List.length_cons, List.map_cons, List.flatten, List.append_assoc, decodeListN, hx]
    rw [ih (fun y hy r => h y (by simp [hy]) r)]

theorem decodeSeqWith_encode (dec : Dec α) (enc : α → List Nat) (xs : List α) (rest : List Nat)
    (h : ∀ x ∈ xs, ∀ r, dec (enc x ++ r) = .ok (x, r)) :
    decodeSeqWith dec (encodeSeqWith enc xs ++ rest) = .ok (xs, rest) := by
  simp only [encodeSeqWith, decodeSeqWith, List.append_assoc, ulebDecode_encode]
  exact decodeListN_encode dec enc xs rest h

theorem decodeBool_encode (b : Bool) (rest : List Nat) :
    decodeBool (encodeBool b ++ rest) = .ok (b, rest) := by
  cases b <;> simp [encodeBool, decodeBool]

theorem decodeStr_encode (s : List Nat) (rest : List Nat) :
    decodeStr (encodeStr s ++ rest) = .ok (s, rest) := by
  simp only [encodeStr, decodeStr, List.append_assoc, ulebDecode_encode]
  exact readBytes_exact s rest

theorem decodeAddress_encode (a : Address) (rest : List Nat) (h : validAddress a = true) :
    decodeAddress (encodeAddress a ++ rest) = .ok (a, rest) := by
  have hlen : a.Address.length = 32 := by
    simp [validAddress, Bool.and_eq_true] at h
    exact h.1
  simp only [decodeAddress, encodeAddress, ← hlen, readBytes_exact]

theorem decodeDigest_encode (d : Digest) (rest : List Nat) (h : validDigest d = true) :
    decodeDigest (encodeDigest d ++ rest) = .ok (d, rest) := by
  have hlen : d.Digest.length = 32 := by
    simp [validDigest, Bool.and_eq_true] at h
    exact h.1
  simp only [decodeDigest, encodeDigest, List.append_assoc, ulebDecode_encode, hlen, if_pos rfl]
  rw [← hlen, readBytes_exact]
  simp

theorem one_le_ttDepth (t : TypeTag) : 1 ≤ ttDepth t := by
  cases t
  case Struct s => cases s; simp [ttDepth]
  all_goals simp [ttDepth]

/-- Fuel-indexed round-trip for the mutually recursive type-tag cluster:
with enough fuel, decoding inverts encoding for `TypeTag`, element lists,
count-prefixed lists, and `StructTag`. -/
theorem ttClusterRoundtrip : ∀ fuel : Nat,
    (∀ t rest, validTypeTag t = true → ttDepth t ≤ fuel →
      decodeTypeTagF fuel (encodeTypeTag t ++ rest) = .ok (t, rest)) ∧
    (∀ l rest, validTypeTagList l = true → ttlDepth l ≤ fuel →
      decodeTTElemsF fuel (tlLength l) (encodeTTElems l ++ rest) = .ok (l, rest)) ∧
    (∀ l rest, validTypeTagList l = true → ttlDepth l ≤ fuel →
      decodeTypeTagSeqF fuel (ulebEncode (tlLength l) ++ (encodeTTElems l ++ rest)) =
        .ok (l, rest)) ∧
    (∀ a m n tps rest, validStructTag (.mk a m n tps) = true → ttlDepth tps ≤ fuel →
      decodeStructTagF fuel (encodeStructTag (.mk a m n tps) ++ rest) =
        .ok (.mk a m n tps, rest)) := by
  intro fuel
  induction fuel with
  | zero =>
    have hE : ∀ l rest, validTypeTagList l = true → ttlDepth l ≤ 0 →
        decodeTTElemsF 0 (tlLength l) (encodeTTElems l ++ rest) = .ok (l, rest) := by
      intro l rest hv hd
      cases l with
      | nil => simp [tlLength, encodeTTElems, decodeTTElemsF]
      | cons h t =>
        exfalso
        have h1 := one_le_ttDepth h
        simp [ttlDepth] at hd
        omega
    have hQ : ∀ l rest, validTypeTagList l = true → ttlDepth l ≤ 0 →
        decodeTypeTagSeqF 0 (ulebEncode (tlLength l) ++ (encodeTTElems l ++ rest)) =
          .ok (l, rest) := by
      intro l rest hv hd
      simp only [decodeTypeTagSeqF, ulebDecode_encode]
      exact hE l rest hv hd
    refine ⟨?_, hE, hQ, ?_⟩
    · intro t rest hv hd
      exfalso
      have := one_le_ttDepth t
      omega
    · intro a m n tps rest hv hd
      have hva : validAddress a = true := by
        simp [validStructTag, Bool.and_eq_true] at hv
        exact hv.1.1.1
      have hvt : validTypeTagList tps = true := by
        simp [validStructTag, Bool.and_eq_true] at hv
        exact hv.2
      simp only [encodeStructTag, decodeStructTagF, List.append_assoc,
        decodeAddress_encode a _ hva, decodeStr_encode, hQ tps rest hvt hd]
  | succ f ih =>
    obtain ⟨ihP, ihE, ihQ, ihS⟩ := ih
    have hP : ∀ t rest, validTypeTag t = true → ttDepth t ≤ f + 1 →
        decodeTypeTagF (f + 1) (encodeTypeTag t ++ rest) = .ok (t, rest) := by
      intro t rest hv hd
      cases t with
      | Bool => simp [encodeTypeTag, decodeTypeTagF, ulebDecode_encode]
      | U8 => simp [encodeTypeTag, decodeTypeTagF, ulebDecode_encode]
      | U64 => simp [encodeTypeTag, decodeTypeTagF, ulebDecode_encode]
      | U128 => simp [encodeTypeTag, decodeTypeTagF, ulebDecode_encode]
      | Address => simp [encodeTypeTag, decodeTypeTagF, ulebDecode_encode]
      | Signer => simp [encodeTypeTag, decodeTypeTagF, ulebDecode_encode]
      | U16 => simp [encodeTypeTag, decodeTypeTagF, ulebDecode_encode]
      | U32 => simp [encodeTypeTag, decodeTypeTagF, ulebDecode_encode]
      | U256 => simp [encodeTypeTag, decodeTypeTagF, ulebDecode_encode]
      | Vector l =>
        have hvl : validTypeTagList l = true := by simpa [validTypeTag] using hv
        have hdl : ttlDepth l ≤ f := by
          simp [ttDepth] at hd
          omega
        simp [encodeTypeTag, decodeTypeTagF, ulebDecode_encode, ihQ l rest hvl hdl]
      | Struct s =>
        cases s with
        | mk a m n tps =>
          have hvs : validStructTag (.mk a m n tps) = true := by
            simpa [validTypeTag] using hv
          have hdl : ttlDepth tps ≤ f := by
            simp [ttDepth] at hd
            omega
          simp [encodeTypeTag, decodeTypeTagF, ulebDecode_encode, ihS a m n tps rest hvs hdl]
    have hEk : ∀ k l rest, tlLength l = k → validTypeTagList l = true → ttlDepth l ≤ f + 1 →
        decodeTTElemsF (f + 1) (tlLength l) (encodeTTElems l ++ rest) = .ok (l, rest) := by
      intro k
      induction k with
      | zero =>
        intro l rest hk hv hd
        cases l with
        | nil => simp [tlLength, encodeTTElems, decodeTTElemsF]
        | cons h t => simp [tlLength] at hk
      | succ j ihl =>
        intro l rest hk hv hd
        cases l with
        | nil => simp [tlLength] at hk
        | cons h t =>
          have hkt : tlLength t = j := by
            simp [tlLength] at hk
            omega
          have hvh : validTypeTag h = true := by
            simp [validTypeTagList, Bool.and_eq_true] at hv
            exact hv.1
          have hvt : validTypeTagList t = true := by
            simp [validTypeTagList, Bool.and_eq_true] at hv
            exact hv.2
          have hdh : ttDepth h ≤ f + 1 := by
            simp [ttlDepth] at hd
            omega
          have hdt : ttlDepth t ≤ f + 1 := by
            simp [ttlDepth] at hd
            omega
          simp only [tlLength, encodeTTElems, List.append_assoc, decodeTTElemsF,
            hP h (encodeTTElems t ++ rest) hvh hdh, ihl t rest hkt hvt hdt]
    have hE : ∀ l rest, validTypeTagList l = true → ttlDepth l ≤ f + 1 →
        decodeTTElemsF (f + 1) (tlLength l) (encodeTTElems l ++ rest) = .ok (l, rest) :=
      fun l rest hv hd => hEk (tlLength l) l rest rfl hv hd
    have hQ : ∀ l rest, validTypeTagList l = true → ttlDepth l ≤ f + 1 →
        decodeTypeTagSeqF (f + 1) (ulebEncode (tlLength l) ++ (encodeTTElems l ++ rest)) =
          .ok (l, rest) := by
      intro l rest hv hd
      simp only [decodeTypeTagSeqF, ulebDecode_encode]
      exact hE l rest hv hd
    refine ⟨hP, hE, hQ, ?_⟩
    intro a m n tps rest hv hd
    have hva : validAddress a = true := by
      simp [validStructTag, Bool.and_eq_true] at hv
      exact hv.1.1.1
    have hvt : validTypeTagList tps = true := by
      simp [validStructTag, Bool.and_eq_true] at hv
      exact hv.2
    simp only [encodeStructTag, decodeStructTagF, List.append_assoc,
      decodeAddress_encode a _ hva, decodeStr_encode, hQ tps rest hvt hd]

/-- Simultaneous induction principle for the mutual type-tag cluster. -/
theorem ttInduction (P : TypeTag → Prop) (Q : StructTag → Prop) (R : TypeTagList → Prop)
    (hBool : P .Bool) (hU8 : P .U8) (hU64 : P .U64) (hU128 : P .U128)
    (hAddress : P .Address) (hSigner : P .Signer)
    (hVector : ∀ l, R l → P (.Vector l)) (hStruct : ∀ s, Q s → P (.Struct s))
    (hU16 : P .U16) (hU32 : P .U32) (hU256 : P .U256)
    (hMk : ∀ a m n tps, R tps → Q (.mk a m n tps))
    (hNil : R .nil) (hCons : ∀ h t, P h → R t → R (.cons h t)) :
    (∀ t, P t) ∧ (∀ s, Q s) ∧ (∀ l, R l) :=
  ⟨fun t => @TypeTag.rec P Q R hBool hU8 hU64 hU128 hAddress hSigner hVector hStruct
      hU16 hU32 hU256 hMk hNil hCons t,
   fun s => @StructTag.rec P Q R hBool hU8 hU64 hU128 hAddress hSigner hVector hStruct
      hU16 hU32 hU256 hMk hNil hCons s,
   fun l => @TypeTagList.rec P Q R hBool hU8 hU64 hU128 hAddress hSigner hVector hStruct
      hU16 hU32 hU256 hMk hNil hCons l⟩

theorem one_le_ulebEncodeAux_length (fuel n : Nat) : 1 ≤ (ulebEncodeAux fuel n).length := by
  cases fuel with
  | zero => simp [ulebEncodeAux]
  | succ f =>
    simp only [ulebEncodeAux]
    split <;> simp

theorem one_le_ulebEncode_length (n : Nat) : 1 ≤ (ulebEncode n).length :=
  one_le_ulebEncodeAux_length n n

theorem one_le_encodeTypeTag_length (t : TypeTag) : 1 ≤ (encodeTypeTag t).length := by
  cases t <;> simp [encodeTypeTag] <;>
    first
      | exact one_le_ulebEncode_length _
      | (have h := one_le_ulebEncode_length 6; omega)
      | (have h := one_le_ulebEncode_length 7; omega)

/-- The nesting depth of an encodable value never exceeds its encoded byte
length, hence the default decoder fuel `input.length + 1` always suffices. -/
theorem ttDepth_le_encode_length :
    (∀ t, ttDepth t ≤ (encodeTypeTag t).length) ∧
    (∀ s, ttlDepth s.type_parameters + 1 ≤ (encodeStructTag s).length) ∧
    (∀ l, ttlDepth l ≤ (encodeTTElems l).length) := by
  refine ttInduction _ _ _ ?_ ?_ ?_ ?_ ?_ ?_ ?_ ?_ ?_ ?_ ?_ ?_ ?_ ?_
  · simp [ttDepth, encodeTypeTag, one_le_ulebEncode_length]
  · simp [ttDepth, encodeTypeTag, one_le_ulebEncode_length]
  · simp [ttDepth, encodeTypeTag, one_le_ulebEncode_length]
  · simp [ttDepth, encodeTypeTag, one_le_ulebEncode_length]
  · simp [ttDepth, encodeTypeTag, one_le_ulebEncode_length]
  · simp [ttDepth, encodeTypeTag, one_le_ulebEncode_length]
  · intro l hR
    have h1 := one_le_ulebEncode_length 6
    have h2 := one_le_ulebEncode_length (tlLength l)
    simp [ttDepth, encodeTypeTag]
    omega
  · intro s hQ
    cases s with
    | mk a m n tps =>
      have h1 := one_le_ulebEncode_length 7
      simp [ttDepth, encodeTypeTag, StructTag.type_parameters] at hQ ⊢
      omega
  · simp [ttDepth, encodeTypeTag, one_le_ulebEncode_length]
  · simp [ttDepth, encodeTypeTag, one_le_ulebEncode_length]
  · simp [ttDepth, encodeTypeTag, one_le_ulebEncode_length]
  · intro a m n tps hR
    have h1 := one_le_ulebEncode_length (tlLength tps)
    have h2 := one_le_ulebEncode_length m.length
    have h3 := one_le_ulebEncode_length n.length
    simp [encodeStructTag, StructTag.type_parameters, encodeStr]
    omega
  · simp [ttlDepth, encodeTTElems]
  · intro h t hP hR
    have h1 := one_le_encodeTypeTag_length h
    simp [ttlDepth, encodeTTElems]
    omega

theorem decodeTypeTag_encode (t : TypeTag) (rest : List Nat) (hv : validTypeTag t = true) :
    decodeTypeTag (encodeTypeTag t ++ rest) = .ok (t, rest) := by
  have hd : ttDepth t ≤ (encodeTypeTag t ++ rest).length + 1 := by
    have h1 := ttDepth_le_encode_length.1 t
    simp
    omega
  exact (ttClusterRoundtrip ((encodeTypeTag t ++ rest).length + 1)).1 t rest hv hd

theorem decodeStructTag_encode (s : StructTag) (rest : List Nat)
    (hv : validStructTag s = true) :
    decodeStructTag (encodeStructTag s ++ rest) = .ok (s, rest) := by
  cases s with
  | mk a m n tps =>
    have hd : ttlDepth tps ≤ (encodeStructTag (.mk a m n tps) ++ rest).length + 1 := by
      have h1 := ttDepth_le_encode_length.2.1 (.mk a m n tps)
      simp [StructTag.type_parameters] at h1
      simp
      omega
    exact (ttClusterRoundtrip ((encodeStructTag (.mk a m n tps) ++ rest).length + 1)).2.2.2
      a m n tps rest hv hd

theorem decodeU8_encode (n : Nat) (rest : List Nat) (h : n < 256) :
    decodeU8 (encodeU8 n ++ rest) = .ok (n, rest) :=
  uintDecodeLE_encode 1 n rest (by simpa using h)

theorem decodeU16_encode (n : Nat) (rest : List Nat) (h : n < 2 ^ 16) :
    decodeU16 (encodeU16 n ++ rest) = .ok (n, rest) :=
  uintDecodeLE_encode 2 n rest (by
    have : (256 : Nat) ^ 2 = 2 ^ 16 := by norm_num
    omega)

theorem decodeU64_encode (n : Nat) (rest : List Nat) (h : n < 2 ^ 64) :
    decodeU64 (encodeU64 n ++ rest) = .ok (n, rest) :=
  uintDecodeLE_encode 8 n rest (by
    have : (256 : Nat) ^ 8 = 2 ^ 64 := by norm_num
    omega)

theorem decodeBytesSeq_encode (bs rest : List Nat) (h : isBytes bs = true) :
    decodeBytesSeq (encodeBytesSeq bs ++ rest) = .ok (bs, rest) := by
  apply decodeSeqWith_encode
  intro x hx r
  apply decodeU8_encode
  simp [isBytes, List.all_eq_true] at h
  exact h x hx

theorem decodeBuilderArg_encode (b : BuilderArg) (rest : List Nat)
    (h : validBuilderArg b = true) :
    decodeBuilderArg (encodeBuilderArg b ++ rest) = .ok (b, rest) := by
  cases b with
  | Object a =>
    simp only [validBuilderArg] at h
    simp [encodeBuilderArg, decodeBuilderArg, ulebDecode_encode, decodeAddress_encode a rest h]
  | Pure bs =>
    simp only [validBuilderArg] at h
    simp [encodeBuilderArg, decodeBuilderArg, ulebDecode_encode, decodeBytesSeq_encode bs rest h]
  | ForcedNonUniquePure =>
    simp [encodeBuilderArg, decodeBuilderArg, ulebDecode_encode]

theorem decodeObjectReference_encode (o : ObjectReference) (rest : List Nat)
    (h : validObjectReference o = true) :
    decodeObjectReference (encodeObjectReference o ++ rest) = .ok (o, rest) := by
  simp only [validObjectReference, Bool.and_eq_true, decide_eq_true_eq] at h
  simp only [encodeObjectReference, decodeObjectReference, List.append_assoc,
    decodeAddress_encode _ _ h.1.1, decodeU64_encode _ _ h.1.2, decodeDigest_encode _ _ h.2]

theorem decodeSharedObjectReference_encode (o : SharedObjectReference) (rest : List Nat)
    (h : validSharedObjectReference o = true) :
    decodeSharedObjectReference (encodeSharedObjectReference o ++ rest) = .ok (o, rest) := by
  simp only [validSharedObjectReference, Bool.and_eq_true, decide_eq_true_eq] at h
  simp only [encodeSharedObjectReference, decodeSharedObjectReference, List.append_assoc,
    decodeAddress_encode _ _ h.1, decodeU64_encode _ _ h.2, decodeBool_encode]

theorem decodeOptionalU64_encode (v : Option Nat) (rest : List Nat)
    (h : validOptionalU64 v = true) :
    decodeOptionalU64 (encodeOptionalU64 v ++ rest) = .ok (v, rest) := by
  cases v with
  | none => simp [encodeOptionalU64, decodeOptionalU64]
  | some v =>
    simp only [validOptionalU64, decide_eq_true_eq] at h
    simp [encodeOptionalU64, decodeOptionalU64, decodeU64_encode v rest h]

theorem decodeObjectArg_encode (o : ObjectArg) (rest : List Nat)
    (h : validObjectArg o = true) :
    decodeObjectArg (encodeObjectArg o ++ rest) = .ok (o, rest) := by
  cases o with
  | ImmOrOwnedObject o =>
    simp only [validObjectArg] at h
    simp [encodeObjectArg, decodeObjectArg, ulebDecode_encode,
      decodeObjectReference_encode o rest h]
  | SharedObject o =>
    simp only [validObjectArg] at h
    simp [encodeObjectArg, decodeObjectArg, ulebDecode_encode,
      decodeSharedObjectReference_encode o rest h]

theorem decodeCallArg_encode (c : CallArg) (rest : List Nat) (h : validCallArg c = true) :
    decodeCallArg (encodeCallArg c ++ rest) = .ok (c, rest) := by
  cases c with
  | Pure bs =>
    simp only [validCallArg] at h
    simp [encodeCallArg, decodeCallArg, ulebDecode_encode, decodeBytesSeq_encode bs rest h]
  | Object o =>
    simp only [validCallArg] at h
    simp [encodeCallArg, decodeCallArg, ulebDecode_encode, decodeObjectArg_encode o rest h]

theorem decodeGasData_encode (g : GasData) (rest : List Nat) (h : validGasData g = true) :
    decodeGasData (encodeGasData g ++ rest) = .ok (g, rest) := by
  simp only [validGasData, Bool.and_eq_true, decide_eq_true_eq] at h
  have hpay : ∀ x ∈ g.Payment, ∀ r,
      decodeObjectReference (encodeObjectReference x ++ r) = .ok (x, r) := by
    intro x hx r
    apply decodeObjectReference_encode
    have := h.1.1.1
    simp [List.all_eq_true] at this
    exact this x hx
  simp only [encodeGasData, decodeGasData, List.append_assoc,
    decodeSeqWith_encode decodeObjectReference encodeObjectReference g.Payment _ hpay,
    decodeAddress_encode _ _ h.1.1.2, decodeU64_encode _ _ h.1.2, decodeU64_encode _ _ h.2]

theorem decodeArgument_encode (a : Argument) (rest : List Nat) (h : validArgument a = true) :
    decodeArgument (encodeArgument a ++ rest) = .ok (a, rest) := by
  cases a with
  | GasCoin => simp [encodeArgument, decodeArgument, ulebDecode_encode]
  | Input v =>
    simp only [validArgument, decide_eq_true_eq] at h
    simp [encodeArgument, decodeArgument, ulebDecode_encode, decodeU16_encode v rest h]
  | Result v =>
    simp only [validArgument, decide_eq_true_eq] at h
    simp [encodeArgument, decodeArgument, ulebDecode_encode, decodeU16_encode v rest h]
  | NestedResult p =>
    obtain ⟨a, b⟩ := p
    simp only [validArgument, Bool.and_eq_true, decide_eq_true_eq] at h
    simp [encodeArgument, decodeArgument, ulebDecode_encode,
      decodeU16_encode a _ h.1, decodeU16_encode b rest h.2]

theorem decodeOptionalTypeTag_encode (t : Option TypeTag) (rest : List Nat)
    (h : validOptionalTypeTag t = true) :
    decodeOptionalTypeTag (encodeOptionalTypeTag t ++ rest) = .ok (t, rest) := by
  cases t with
  | none => simp [encodeOptionalTypeTag, decodeOptionalTypeTag]
  | some t =>
    simp only [validOptionalTypeTag] at h
    simp [encodeOptionalTypeTag, decodeOptionalTypeTag, decodeTypeTag_encode t rest h]

theorem decodeTypeTagSeq_encode (ts : List TypeTag) (rest : List Nat)
    (h : ts.all validTypeTag = true) :
    decodeTypeTagSeq (encodeTypeTagSeq ts ++ rest) = .ok (ts, rest) := by
  apply decodeSeqWith_encode
  intro x hx r
  apply decodeTypeTag_encode
  simp [List.all_eq_true] at h
  exact h x hx

theorem decodeArgumentSeq_encode (xs : List Argument) (rest : List Nat)
    (h : xs.all validArgument = true) :
    decodeArgumentSeq (encodeArgumentSeq xs ++ rest) = .ok (xs, rest) := by
  apply decodeSeqWith_encode
  intro x hx r
  apply decodeArgument_encode
  simp [List.all_eq_true] at h
  exact h x hx

theorem decodeProgrammableMoveCall_encode (m : ProgrammableMoveCall) (rest : List Nat)
    (h : validProgrammableMoveCall m = true) :
    decodeProgrammableMoveCall (encodeProgrammableMoveCall m ++ rest) = .ok (m, rest) := by
  simp only [validProgrammableMoveCall, Bool.and_eq_true] at h
  simp only [encodeProgrammableMoveCall, decodeProgrammableMoveCall, List.append_assoc,
    decodeAddress_encode _ _ h.1.1.1.1, decodeStr_encode,
    decodeTypeTagSeq_encode _ _ h.1.2, decodeArgumentSeq_encode _ _ h.2]

theorem decodeTransferObjects_encode (t : TransferObjects) (rest : List Nat)
    (h : validTransferObjects t = true) :
    decodeTransferObjects (encodeTransferObjects t ++ rest) = .ok (t, rest) := by
  simp only [validTransferObjects, Bool.and_eq_true] at h
  simp only [encodeTransferObjects, decodeTransferObjects, List.append_assoc,
    decodeArgumentSeq_encode _ _ h.1, decodeArgument_encode _ _ h.2]

theorem decodeSplitCoin_encode (s : SplitCoin) (rest : List Nat)
    (h : validSplitCoin s = true) :
    decodeSplitCoin (encodeSplitCoin s ++ rest) = .ok (s, rest) := by
  simp only [validSplitCoin, Bool.and_eq_true] at h
  simp only [encodeSplitCoin, decodeSplitCoin, List.append_assoc,
    decodeArgument_encode _ _ h.1, decodeArgumentSeq_encode _ _ h.2]

theorem decodeMergeCoins_encode (m : MergeCoins) (rest : List Nat)
    (h : validMergeCoins m = true) :
    decodeMergeCoins (encodeMergeCoins m ++ rest) = .ok (m, rest) := by
  simp only [validMergeCoins, Bool.and_eq_true] at h
  simp only [encodeMergeCoins, decodeMergeCoins, List.append_assoc,
    decodeArgument_encode _ _ h.1, decodeArgumentSeq_encode _ _ h.2]

theorem decodeModulesSeq_encode (ms : List (List Nat)) (rest : List Nat)
    (h : ms.all isBytes = true) :
    decodeModulesSeq (encodeModulesSeq ms ++ rest) = .ok (ms, rest) := by
  apply decodeSeqWith_encode
  intro x hx r
  apply decodeBytesSeq_encode
  simp only [List.all_eq_true] at h
  exact h x hx

theorem decodeAddressSeq_encode (xs : List Address) (rest : List Nat)
    (h : xs.all validAddress = true) :
    decodeAddressSeq (encodeAddressSeq xs ++ rest) = .ok (xs, rest) := by
  apply decodeSeqWith_encode
  intro x hx r
  apply decodeAddress_encode
  simp only [List.all_eq_true] at h
  exact h x hx

theorem decodePublish_encode (p : Publish) (rest : List Nat) (h : validPublish p = true) :
    decodePublish (encodePublish p ++ rest) = .ok (p, rest) := by
  simp only [validPublish, Bool.and_eq_true] at h
  simp only [encodePublish, decodePublish, List.append_assoc,
    decodeModulesSeq_encode _ _ h.1, decodeAddressSeq_encode _ _ h.2]

theorem decodeMakeMoveVec_encode (m : MakeMoveVec) (rest : List Nat)
    (h : validMakeMoveVec m = true) :
    decodeMakeMoveVec (encodeMakeMoveVec m ++ rest) = .ok (m, rest) := by
  simp only [validMakeMoveVec, Bool.and_eq_true] at h
  simp only [encodeMakeMoveVec, decodeMakeMoveVec, List.append_assoc,
    decodeOptionalTypeTag_encode _ _ h.1, decodeArgumentSeq_encode _ _ h.2]

theorem decodeUpgrade_encode (u : Upgrade) (rest : List Nat) (h : validUpgrade u = true) :
    decodeUpgrade (encodeUpgrade u ++ rest) = .ok (u, rest) := by
  simp only [validUpgrade, Bool.and_eq_true] at h
  simp only [encodeUpgrade, decodeUpgrade, List.append_assoc,
    decodeModulesSeq_encode _ _ h.1.1.1, decodeAddressSeq_encode _ _ h.1.1.2,
    decodeAddress_encode _ _ h.1.2, decodeArgument_encode _ _ h.2]

theorem decodeCommand_encode (c : Command) (rest : List Nat) (h : validCommand c = true) :
    decodeCommand (encodeCommand c ++ rest) = .ok (c, rest) := by
  cases c with
  | MoveCall m =>
    simp only [validCommand] at h
    simp [encodeCommand, decodeCommand, ulebDecode_encode,
      decodeProgrammableMoveCall_encode m rest h]
  | TransferObjects t =>
    simp only [validCommand] at h
    simp [encodeCommand, decodeCommand, ulebDecode_encode, decodeTransferObjects_encode t rest h]
  | SplitCoin s =>
    simp only [validCommand] at h
    simp [encodeCommand, decodeCommand, ulebDecode_encode, decodeSplitCoin_encode s rest h]
  | MergeCoins m =>
    simp only [validCommand] at h
    simp [encodeCommand, decodeCommand, ulebDecode_encode, decodeMergeCoins_encode m rest h]
  | Publish p =>
    simp only [validCommand] at h
    simp [encodeCommand, decodeCommand, ulebDecode_encode, decodePublish_encode p rest h]
  | MakeMoveVec m =>
    simp only [validCommand] at h
    simp [encodeCommand, decodeCommand, ulebDecode_encode, decodeMakeMoveVec_encode m rest h]
  | Upgrade u =>
    simp only [validCommand] at h
    simp [encodeCommand, decodeCommand, ulebDecode_encode, decodeUpgrade_encode u rest h]

theorem decodeProgrammableTransaction_encode (p : ProgrammableTransaction) (rest : List Nat)
    (h : validProgrammableTransaction p = true) :
    decodeProgrammableTransaction (encodeProgrammableTransaction p ++ rest) = .ok (p, rest) := by
  simp only [validProgrammableTransaction, Bool.and_eq_true] at h
  have hins : ∀ x ∈ p.Inputs, ∀ r, decodeCallArg (encodeCallArg x ++ r) = .ok (x, r) := by
    intro x hx r
    apply decodeCallArg_encode
    have := h.1
    simp only [List.all_eq_true] at this
    exact this x hx
  have hcs : ∀ x ∈ p.Command, ∀ r, decodeCommand (encodeCommand x ++ r) = .ok (x, r) := by
    intro x hx r
    apply decodeCommand_encode
    have := h.2
    simp only [List.all_eq_true] at this
    exact this x hx
  simp only [encodeProgrammableTransaction, decodeProgrammableTransaction, List.append_assoc,
    decodeSeqWith_encode decodeCallArg encodeCallArg p.Inputs _ hins,
    decodeSeqWith_encode decodeCommand encodeCommand p.Command _ hcs]

theorem decodeTransactionKind_encode (k : TransactionKind) (rest : List Nat)
    (h : validTransactionKind k = true) :
    decodeTransactionKind (encodeTransactionKind k ++ rest) = .ok (k, rest) := by
  cases k with
  | ProgrammableTransaction p =>
    simp only [validTransactionKind] at h
    simp [encodeTransactionKind, decodeTransactionKind, ulebDecode_encode,
      decodeProgrammableTransaction_encode p rest h]
  | ChangeEpoch => simp [encodeTransactionKind, decodeTransactionKind, ulebDecode_encode]
  | Genesis => simp [encodeTransactionKind, decodeTransactionKind, ulebDecode_encode]
  | ConsensusCommitPrologue =>
    simp [encodeTransactionKind, decodeTransactionKind, ulebDecode_encode]

theorem decodeTransactionExpiration_encode (x : TransactionExpiration) (rest : List Nat)
    (h : validTransactionExpiration x = true) :
    decodeTransactionExpiration (encodeTransactionExpiration x ++ rest) = .ok (x, rest) := by
  cases x with
  | None => simp [encodeTransactionExpiration, decodeTransactionExpiration, ulebDecode_encode]
  | Epoch v =>
    simp only [validTransactionExpiration, decide_eq_true_eq] at h
    simp [encodeTransactionExpiration, decodeTransactionExpiration, ulebDecode_encode,
      decodeU64_encode v rest h]

theorem decodeTransactionDataV1_encode (t : TransactionDataV1) (rest : List Nat)
    (h : validTransactionDataV1 t = true) :
    decodeTransactionDataV1 (encodeTransactionDataV1 t ++ rest) = .ok (t, rest) := by
  simp only [validTransactionDataV1, Bool.and_eq_true] at h
  simp only [encodeTransactionDataV1, decodeTransactionDataV1, List.append_assoc,
    decodeTransactionKind_encode _ _ h.1.1.1, decodeAddress_encode _ _ h.1.1.2,
    decodeGasData_encode _ _ h.1.2, decodeTransactionExpiration_encode _ _ h.2]

theorem decodeTransactionData_encode (t : TransactionData) (rest : List Nat)
    (h : validTransactionData t = true) :
    decodeTransactionData (encodeTransactionData t ++ rest) = .ok (t, rest) := by
  cases t with
  | V1 t =>
    simp only [validTransactionData] at h
    simp [encodeTransactionData, decodeTransactionData, ulebDecode_encode,
      decodeTransactionDataV1_encode t rest h]

theorem findIdxOfByte_lt_length (b : Nat) (l : List Nat) (i : Nat)
    (h : findIdxOfByte b l = some i) : i < l.length := by
  induction l generalizing i with
  | nil => simp [findIdxOfByte] at h
  | cons c rest ih =>
    simp only [findIdxOfByte] at h
    by_cases hc : c = b
    · rw [if_pos hc] at h
      injection h with h2
      simp [← h2]
    · rw [if_neg hc] at h
      match hm : findIdxOfByte b rest with
      | none =>
        rw [hm] at h
        simp at h
      | some j =>
        rw [hm] at h
        simp at h
        have := ih j hm
        simp
        omega

/-- C10: every `TypeTag` variant wire index equals its position in the
declared `_enums` order (bcs.py lines 172-184): Bool=0, U8=1, U64=2,
U128=3, Address=4, Signer=5, Vector=6, Struct=7, U16=8, U32=9, U256=10;
in particular U16, U32 and U256 serialize with indices 8, 9 and 10, after
the patched Vector and Struct slots, not in scalar listing order. -/
theorem C10_typetag_variant_indices :
    encodeTypeTag .Bool = [0] ∧ encodeTypeTag .U8 = [1] ∧ encodeTypeTag .U64 = [2] ∧
    encodeTypeTag .U128 = [3] ∧ encodeTypeTag .Address = [4] ∧ encodeTypeTag .Signer = [5] ∧
    (∀ l, encodeTypeTag (.Vector l) = 6 :: (ulebEncode (tlLength l) ++ encodeTTElems l)) ∧
    (∀ s, encodeTypeTag (.Struct s) = 7 :: encodeStructTag s) ∧
    encodeTypeTag .U16 = [8] ∧ encodeTypeTag .U32 = [9] ∧ encodeTypeTag .U256 = [10] := by
  have h6 : ulebEncode 6 = [6] := rfl
  have h7 : ulebEncode 7 = [7] := rfl
  exact ⟨by simp [encodeTypeTag, ulebEncode, ulebEncodeAux], by simp [encodeTypeTag, ulebEncode, ulebEncodeAux],
    by simp [encodeTypeTag, ulebEncode, ulebEncodeAux], by simp [encodeTypeTag, ulebEncode, ulebEncodeAux],
    by simp [encodeTypeTag, ulebEncode, ulebEncodeAux], by simp [encodeTypeTag, ulebEncode, ulebEncodeAux],
    fun l => by simp [encodeTypeTag, h6], fun s => by simp [encodeTypeTag, h7],
    by simp [encodeTypeTag, ulebEncode, ulebEncodeAux], by simp [encodeTypeTag, ulebEncode, ulebEncodeAux],
    by simp [encodeTypeTag, ulebEncode, ulebEncodeAux]⟩

/-- C8 counterexample: a valid `Digest` whose serialized form has 33 bytes,
not 32 — the digest field keeps the codec default ULEB128 count prefix. -/
theorem C8_digest_not_32_bytes :
    validDigest exampleDigest = true ∧ (encodeDigest exampleDigest).length = 33 := by
  constructor
  · decide
  · simp [encodeDigest, exampleDigest, ulebEncode, ulebEncodeAux]

/-- C8 (amended): a valid `Address` serializes to exactly its 32 raw bytes
with no length prefix, while a valid `Digest` serializes to exactly 33
bytes: a one-byte ULEB128 count (32) followed by its 32 content bytes. -/
theorem C8_fixed_array_encoding_amended :
    (∀ a : Address, validAddress a = true →
      encodeAddress a = a.Address ∧ (encodeAddress a).length = 32) ∧
    (∀ d : Digest, validDigest d = true →
      encodeDigest d = 32 :: d.Digest ∧ (encodeDigest d).length = 33) := by
  constructor
  · intro a h
    simp only [validAddress, Bool.and_eq_true, decide_eq_true_eq] at h
    refine ⟨rfl, ?_⟩
    simpa [encodeAddress] using h.1
  · intro d h
    simp only [validDigest, Bool.and_eq_true, decide_eq_true_eq] at h
    have hlen : d.Digest.length = 32 := h.1
    have huleb : ulebEncode 32 = [32] := rfl
    constructor
    · simp [encodeDigest, hlen, huleb]
    · simp [encodeDigest, hlen, huleb]

/-- C8 witness: the amended statement at concrete inputs. -/
theorem C8_fixed_array_encoding_witness :
    validAddress exampleAddress = true ∧ validDigest exampleDigest = true ∧
    (encodeAddress exampleAddress).length = 32 ∧
    encodeDigest exampleDigest = 32 :: exampleDigest.Digest :=
  ⟨by decide, by decide,
   (C8_fixed_array_encoding_amended.1 exampleAddress (by decide)).2,
   (C8_fixed_array_encoding_amended.2 exampleDigest (by decide)).1⟩

/-- C1: with one assembled command and a command limit of zero, the
command-count check trips, and line 173 then reads `self.commands` — an
attribute `_SuiTransactionBase` never defines — so `verify_transaction`
raises AttributeError instead of recording the length of the assembled
command sequence. -/
theorem C1_command_count_check_raises :
    ([Command.TransferObjects ⟨[], .GasCoin⟩].length >
      ({} : TransactionConstraints).max_programmable_tx_commands) ∧
    verify_transaction ⟨⟨[], [.TransferObjects ⟨[], .GasCoin⟩], 0⟩, {}, 1000⟩ (some [0]) =
      .error "AttributeError: _SuiTransactionBase object has no attribute commands" :=
  ⟨by decide, rfl⟩

/-- C3: the capitalized-scalar table (bcs.py line 170) misspells "U128" as
"uU28", so the lowercase spelling "u128" maps to an invalid variant name
(TypeError) and the capitalized spelling "U128" is not recognized at all
(ValueError); the other six scalar names alias correctly in both
spellings. -/
theorem C3_u128_scalar_alias_fails :
    type_tag_from (pystr "u128") = .error "TypeError: not a valid enum name" ∧
    type_tag_from (pystr "U128") = .error "ValueError: not a recognized TypeTag" ∧
    type_tag_from (pystr "bool") = .ok .Bool ∧ type_tag_from (pystr "Bool") = .ok .Bool ∧
    type_tag_from (pystr "u8") = .ok .U8 ∧ type_tag_from (pystr "U8") = .ok .U8 ∧
    type_tag_from (pystr "u16") = .ok .U16 ∧ type_tag_from (pystr "U16") = .ok .U16 ∧
    type_tag_from (pystr "u32") = .ok .U32 ∧ type_tag_from (pystr "U32") = .ok .U32 ∧
    type_tag_from (pystr "u64") = .ok .U64 ∧ type_tag_from (pystr "U64") = .ok .U64 ∧
    type_tag_from (pystr "u256") = .ok .U256 ∧ type_tag_from (pystr "U256") = .ok .U256 := by
  refine ⟨?_, ?_, ?_, ?_, ?_, ?_, ?_, ?_, ?_, ?_, ?_, ?_, ?_, ?_⟩ <;>
    simp [type_tag_from, pyIndexOf, lcaseScalars, ucaseScalars, pystr, typeTagByName,
      splitColons, countVector, vectorTok]

/-- C2: for every struct and enum type defined in bcs.py and every
constructible value, decoding the encoded bytes (with any suffix) returns
the original value and the untouched suffix: the round-trip law
`decode(encode(x)) == x`. -/
theorem C2_decode_encode_roundtrip :
    (∀ x rest, validAddress x = true → decodeAddress (encodeAddress x ++ rest) = .ok (x, rest)) ∧
    (∀ x rest, validDigest x = true → decodeDigest (encodeDigest x ++ rest) = .ok (x, rest)) ∧
    (∀ x rest, validBuilderArg x = true →
      decodeBuilderArg (encodeBuilderArg x ++ rest) = .ok (x, rest)) ∧
    (∀ x rest, validObjectReference x = true →
      decodeObjectReference (encodeObjectReference x ++ rest) = .ok (x, rest)) ∧
    (∀ x rest, validSharedObjectReference x = true →
      decodeSharedObjectReference (encodeSharedObjectReference x ++ rest) = .ok (x, rest)) ∧
    (∀ x rest, validOptionalU64 x = true →
      decodeOptionalU64 (encodeOptionalU64 x ++ rest) = .ok (x, rest)) ∧
    (∀ x rest, validTypeTag x = true → decodeTypeTag (encodeTypeTag x ++ rest) = .ok (x, rest)) ∧
    (∀ x rest, validStructTag x = true →
      decodeStructTag (encodeStructTag x ++ rest) = .ok (x, rest)) ∧
    (∀ x rest, validObjectArg x = true →
      decodeObjectArg (encodeObjectArg x ++ rest) = .ok (x, rest)) ∧
    (∀ x rest, validCallArg x = true → decodeCallArg (encodeCallArg x ++ rest) = .ok (x, rest)) ∧
    (∀ x rest, validGasData x = true → decodeGasData (encodeGasData x ++ rest) = .ok (x, rest)) ∧
    (∀ x rest, validArgument x = true →
      decodeArgument (encodeArgument x ++ rest) = .ok (x, rest)) ∧
    (∀ x rest, validOptionalTypeTag x = true →
      decodeOptionalTypeTag (encodeOptionalTypeTag x ++ rest) = .ok (x, rest)) ∧
    (∀ x rest, validProgrammableMoveCall x = true →
      decodeProgrammableMoveCall (encodeProgrammableMoveCall x ++ rest) = .ok (x, rest)) ∧
    (∀ x rest, validTransferObjects x = true →
      decodeTransferObjects (encodeTransferObjects x ++ rest) = .ok (x, rest)) ∧
    (∀ x rest, validSplitCoin x = true →
      decodeSplitCoin (encodeSplitCoin x ++ rest) = .ok (x, rest)) ∧
    (∀ x rest, validMergeCoins x = true →
      decodeMergeCoins (encodeMergeCoins x ++ rest) = .ok (x, rest)) ∧
    (∀ x rest, validPublish x = true → decodePublish (encodePublish x ++ rest) = .ok (x, rest)) ∧
    (∀ x rest, validMakeMoveVec x = true →
      decodeMakeMoveVec (encodeMakeMoveVec x ++ rest) = .ok (x, rest)) ∧
    (∀ x rest, validUpgrade x = true → decodeUpgrade (encodeUpgrade x ++ rest) = .ok (x, rest)) ∧
    (∀ x rest, validCommand x = true → decodeCommand (encodeCommand x ++ rest) = .ok (x, rest)) ∧
    (∀ x rest, validProgrammableTransaction x = true →
      decodeProgrammableTransaction (encodeProgrammableTransaction x ++ rest) = .ok (x, rest)) ∧
    (∀ x rest, validTransactionKind x = true →
      decodeTransactionKind (encodeTransactionKind x ++ rest) = .ok (x, rest)) ∧
    (∀ x rest, validTransactionExpiration x = true →
      decodeTransactionExpiration (encodeTransactionExpiration x ++ rest) = .ok (x, rest)) ∧
    (∀ x rest, validTransactionDataV1 x = true →
      decodeTransactionDataV1 (encodeTransactionDataV1 x ++ rest) = .ok (x, rest)) ∧
    (∀ x rest, validTransactionData x = true →
      decodeTransactionData (encodeTransactionData x ++ rest) = .ok (x, rest)) :=
  ⟨decodeAddress_encode, decodeDigest_encode, decodeBuilderArg_encode,
   decodeObjectReference_encode, decodeSharedObjectReference_encode, decodeOptionalU64_encode,
   decodeTypeTag_encode, decodeStructTag_encode, decodeObjectArg_encode, decodeCallArg_encode,
   decodeGasData_encode, decodeArgument_encode, decodeOptionalTypeTag_encode,
   decodeProgrammableMoveCall_encode, decodeTransferObjects_encode, decodeSplitCoin_encode,
   decodeMergeCoins_encode, decodePublish_encode, decodeMakeMoveVec_encode,
   decodeUpgrade_encode, decodeCommand_encode, decodeProgrammableTransaction_encode,
   decodeTransactionKind_encode, decodeTransactionExpiration_encode,
   decodeTransactionDataV1_encode, decodeTransactionData_encode⟩

/-- C2 witness: the round-trip law applied to a concrete transaction
envelope containing pure and object inputs, a MoveCall with nested vector
and struct type tags, and a MakeMoveVec command. -/
theorem C2_decode_encode_roundtrip_witness :
    validTransactionData exampleTransactionData = true ∧
    decodeTransactionData (encodeTransactionData exampleTransactionData ++ [9]) =
      .ok (exampleTransactionData, [9]) :=
  ⟨by decide,
   C2_decode_encode_roundtrip.2.2.2.2.2.2.2.2.2.2.2.2.2.2.2.2.2.2.2.2.2.2.2.2.2
     exampleTransactionData [9] (by decide)⟩

/-- C5 counterexample: "0xvector" contains the token "vector" once, yet
`type_tag_from` returns the Address variant — the 0x-prefix branch runs
before the vector branch, so the result carries no Vector wrapping at
all. -/
theorem C5_vector_claim_counterexample :
    countVector (pystr "0xvector") = 1 ∧
    type_tag_from (pystr "0xvector") = .ok .Address ∧
    (match type_tag_from (pystr "0xvector") with
     | .ok t => isVectorTT t
     | .error _ => false) = false := by
  refine ⟨?_, ?_, ?_⟩ <;>
    simp [type_tag_from, pyIndexOf, lcaseScalars, ucaseScalars, pystr, splitColons,
      countVector, vectorTok, isVectorTT]

/-- C5 (amended): only once the earlier branches decline — the string is
no scalar spelling, splits into at most two "::" segments, and has no
0x/0X prefix — does a string containing "vector" parse as the slice
between the character after the last left angle bracket and the first
right angle bracket (failing when no right angle bracket exists), wrapped in one Vector variant per occurrence of "vector";
in particular "vector<vector<u8>>" yields Vector(Vector(U8)). -/
theorem C5_vector_parsing_amended :
    (∀ value : List Nat,
      pyIndexOf value lcaseScalars = none →
      value ∉ ucaseScalars →
      ¬ (splitColons value).length > 2 →
      ((pystr "0x").isPrefixOf value || (pystr "0X").isPrefixOf value) = false →
      countVector value ≠ 0 →
      type_tag_from value =
        match findIdxOfByte 62 value with
        | none => .error "ValueError: substring not found"
        | some b =>
          match type_tag_from (pySlice value
              (match rfindIdxOfByte 60 value with
               | some a => a + 1
               | none => 0) b) with
          | .ok inner => .ok (wrapVectors (countVector value) inner)
          | .error e => .error e) ∧
    type_tag_from (pystr "vector<vector<u8>>") =
      .ok (.Vector (.cons (.Vector (.cons .U8 .nil)) .nil)) := by
  constructor
  · intro value h1 h2 h3 h4 h5
    conv_lhs => rw [type_tag_from]
    rw [h1]
    rw [if_neg h2, if_neg h3, h4]
    simp only [Bool.false_eq_true, if_false]
    rw [if_pos h5]
    split
    · rename_i heq
      simp only [heq]
    · rename_i b heq
      simp only [heq]
  · simp [type_tag_from, pyIndexOf, lcaseScalars, ucaseScalars, pystr, splitColons, countVector,
      vectorTok, findIdxOfByte, rfindIdxOfByte, pySlice, typeTagByName, wrapVectors]

/-- C5 witness: the amended branch description applied to "vector<u8>". -/
theorem C5_vector_parsing_witness :
    type_tag_from (pystr "vector<u8>") = .ok (.Vector (.cons .U8 .nil)) := by
  have h := C5_vector_parsing_amended.1 (pystr "vector<u8>")
    (by decide) (by decide) (by decide) (by decide)
    (by simp [countVector, vectorTok, pystr])
  rw [h]
  simp [findIdxOfByte, rfindIdxOfByte, pySlice, pystr, type_tag_from, pyIndexOf, lcaseScalars,
    ucaseScalars, typeTagByName, wrapVectors, countVector, vectorTok, splitColons]

/-- C6 counterexample: "zz::coin::Coin" contains exactly two "::"
separators, yet `from_type_str` fails — the address segment "zz" is not
parseable hex, so two separators alone do not guarantee success. -/
theorem C6_two_separators_not_sufficient :
    countColons (pystr "zz::coin::Coin") = 2 ∧
    from_type_str (pystr "zz::coin::Coin") = .error "ValueError: invalid hex string" := by
  constructor
  · rfl
  · rfl

/-- C6 (amended): `from_type_str` fails with a value error whenever the
"::" separator count differs from two; on exactly two separators it
additionally requires the first segment to parse as a hex address, and
then yields that address, the module and name segments, and an empty
type-parameter list. "0x2::coin::Coin" succeeds; "0x2::coin" and
"a::b::c::d" fail. -/
theorem C6_from_type_str_amended :
    (∀ s, countColons s ≠ 2 →
      from_type_str s = .error "ValueError: Ill formed type_argument") ∧
    (∀ s st, from_type_str s = .ok st →
      countColons s = 2 ∧ st.type_parameters = .nil ∧
      ∃ a m n, splitColons s = [a, m, n] ∧ addressFromStr a = .ok st.address ∧
        st.module = m ∧ st.name = n) ∧
    from_type_str (pystr "0x2::coin::Coin") =
      .ok (.mk ⟨List.replicate 31 0 ++ [2]⟩ (pystr "coin") (pystr "Coin") .nil) ∧
    from_type_str (pystr "0x2::coin") = .error "ValueError: Ill formed type_argument" ∧
    from_type_str (pystr "a::b::c::d") = .error "ValueError: Ill formed type_argument" := by
  refine ⟨?_, ?_, by rfl, by rfl, by rfl⟩
  · intro s h
    unfold from_type_str
    rw [if_neg h]
  · intro s st h
    unfold from_type_str at h
    by_cases hc : countColons s = 2
    · rw [if_pos hc] at h
      refine ⟨hc, ?_⟩
      split at h
      · rename_i a m n heq
        split at h
        · rename_i ad had
          injection h with h2
          subst h2
          exact ⟨rfl, a, m, n, heq, by simpa [StructTag.address] using had, rfl, rfl⟩
        · simp at h
      · simp at h
    · rw [if_neg hc] at h
      simp at h

/-- C6 witness: the amended wrong-separator-count clause applied to a
concrete input with no separators. -/
theorem C6_from_type_str_witness :
    countColons (pystr "xyz") ≠ 2 ∧
    from_type_str (pystr "xyz") = .error "ValueError: Ill formed type_argument" :=
  ⟨by decide, C6_from_type_str_amended.1 (pystr "xyz") (by decide)⟩

theorem maxPureInputs_foldl (keys : List BuilderArg) (acc : Nat) :
    keys.foldl
      (fun acc k =>
        match k with
        | BuilderArg.Pure bs => if bs.length > acc then bs.length else acc
        | _ => acc) acc = max acc (specMaxSinglePureLength keys) := by
  induction keys generalizing acc with
  | nil => simp [specMaxSinglePureLength]
  | cons k ks ih =>
    cases k with
    | Pure bs =>
      have hs : specMaxSinglePureLength (BuilderArg.Pure bs :: ks) =
          max bs.length (specMaxSinglePureLength ks) := by
        simp [specMaxSinglePureLength]
      rw [List.foldl_cons, hs]
      simp only []
      rw [ih]
      split_ifs <;> omega
    | Object a =>
      have hs : specMaxSinglePureLength (BuilderArg.Object a :: ks) =
          specMaxSinglePureLength ks := by
        simp [specMaxSinglePureLength]
      rw [List.foldl_cons, hs]
      exact ih acc
    | ForcedNonUniquePure =>
      have hs : specMaxSinglePureLength (BuilderArg.ForcedNonUniquePure :: ks) =
          specMaxSinglePureLength ks := by
        simp [specMaxSinglePureLength]
      rw [List.foldl_cons, hs]
      exact ih acc

/-- With nonempty pre-serialized bytes and the command count within its
limit, `verify_transaction` reduces to the size check over those bytes. -/
theorem verify_some_eq (st : SuiTransaction) (bs : List Nat)
    (h1 : ¬ st.builder.commands.length > st.constraints.max_programmable_tx_commands)
    (h2 : bs ≠ []) :
    verify_transaction st (some bs) = finishVerify st (preCommandCheckAccum st).1 bs := by
  unfold verify_transaction
  rw [if_neg h1]
  exact if_neg h2

/-- Whatever branch runs, a successful `verify_transaction` returns the
constraints table unchanged and a violation component of the fixed
none-if-empty shape. -/
theorem verify_ok_shape (st : SuiTransaction) (serKind : Option (List Nat))
    (out : TransactionConstraints × Option (List (String × Nat)))
    (h : verify_transaction st serKind = .ok out) :
    ∃ rr : TransactionConstraints,
      out = (st.constraints, if errDict rr = [] then none else some (errDict rr)) := by
  have hfin : ∀ (r : TransactionConstraints) (ser : List Nat),
      finishVerify st r ser = .ok out →
      ∃ rr : TransactionConstraints,
        out = (st.constraints, if errDict rr = [] then none else some (errDict rr)) := by
    intro r ser hf
    simp only [finishVerify, Except.ok.injEq] at hf
    exact ⟨_, hf.symm⟩
  unfold verify_transaction at h
  split at h
  · exact absurd h (by simp)
  · split at h
    · split at h
      · split at h
        · exact absurd h (by simp)
        · exact hfin _ _ h
      · exact hfin _ _ h
    · split at h
      · exact absurd h (by simp)
      · exact hfin _ _ h

/-- C4: the verifier pure-argument metric is the maximum single Pure
input length (not a cumulative sum), flagged when ≥ the configured
maximum; with max_pure_argument_size = 10, a single Pure input of length
11, no commands, and every other limit unexceeded, `verify_transaction`
reports exactly {max_pure_argument_size: 11} and no other keys. -/
theorem C4_max_pure_metric :
    (∀ keys, maxPureInputs keys = specMaxSinglePureLength keys) ∧
    (∀ (c : TransactionConstraints) (p bs : List Nat) (gp : Nat),
      c.max_pure_argument_size = 10 → p.length = 11 → bs ≠ [] →
      bs.length ≤ c.max_tx_size_bytes →
      verify_transaction ⟨⟨[(.Pure p, .Pure p)], [], 0⟩, c, gp⟩ (some bs) =
        .ok (c, some [("max_pure_argument_size", 11)])) := by
  constructor
  · intro keys
    simpa [maxPureInputs] using maxPureInputs_foldl keys 0
  · intro c p bs gp hc hp hbs hsize
    have hpre : preCommandCheckAccum ⟨⟨[(.Pure p, .Pure p)], [], 0⟩, c, gp⟩ =
        (⟨11, 0, 0, 0, 0, 0, 0⟩, 0) := by
      simp [preCommandCheckAccum, maxPureInputs, objInputKeys, argsCheck, hp, hc,
        gt_iff_lt, Nat.not_lt_zero]
    have hns : ¬ bs.length > c.max_tx_size_bytes := by omega
    have hfin : finishVerify ⟨⟨[(.Pure p, .Pure p)], [], 0⟩, c, gp⟩ ⟨11, 0, 0, 0, 0, 0, 0⟩ bs =
        .ok (c, some [("max_pure_argument_size", 11)]) := by
      simp [finishVerify, hns, errDict]
    rw [verify_some_eq _ bs (by show ¬ (0 > c.max_programmable_tx_commands); omega) hbs, hpre]
    exact hfin

/-- C4 witness: the reported mapping at a concrete constraints table and a
concrete length-11 Pure input. -/
theorem C4_max_pure_metric_witness :
    verify_transaction ⟨⟨[(.Pure (List.replicate 11 7), .Pure (List.replicate 11 7))], [], 0⟩,
        ⟨10, 5, 5, 5, 5, 5, 100⟩, 1000⟩ (some [0]) =
      .ok (⟨10, 5, 5, 5, 5, 5, 100⟩, some [("max_pure_argument_size", 11)]) :=
  C4_max_pure_metric.2 ⟨10, 5, 5, 5, 5, 5, 100⟩ (List.replicate 11 7) [0] 1000 rfl
    (by decide) (by decide) (by decide)

theorem argsCheck_foldl (cmds : List Command) (cons : TransactionConstraints)
    (r : TransactionConstraints) (t : Nat) :
    cmds.foldl
      (fun (acc : TransactionConstraints × Nat) cmd =>
        let args_one := argsOne cmd
        let type_args_one := typeArgsOne cmd
        let r1 :=
          if args_one > cons.max_arguments then { acc.1 with max_arguments := args_one }
          else acc.1
        let r2 :=
          if type_args_one > cons.max_type_arguments then
            { r1 with max_type_arguments := type_args_one }
          else r1
        (r2, acc.2 + args_one)) (r, t) =
      ({ r with
          max_arguments :=
            (cmds.map argsOne).foldl
              (fun acc a => if a > cons.max_arguments then a else acc) r.max_arguments,
          max_type_arguments :=
            (cmds.map typeArgsOne).foldl
              (fun acc a => if a > cons.max_type_arguments then a else acc)
              r.max_type_arguments },
        t + (cmds.map argsOne).sum) := by
  induction cmds generalizing r t with
  | nil =>
    simp
  | cons cmd cmds ih =>
    obtain ⟨f1, f2, f3, f4, f5, f6, f7⟩ := r
    simp only [List.foldl_cons, List.map_cons, List.sum_cons]
    rw [ih]
    split_ifs <;> simp <;> omega

/-- The closed form of the command loop: the two scalar slots hold the
limit-exceeding folds (last offender wins) and the second component is
the running total of argument counts. -/
theorem argsCheck_spec (cmds : List Command) (cons r : TransactionConstraints) :
    argsCheck cmds cons r =
      ({ r with
          max_arguments :=
            (cmds.map argsOne).foldl
              (fun acc a => if a > cons.max_arguments then a else acc) r.max_arguments,
          max_type_arguments :=
            (cmds.map typeArgsOne).foldl
              (fun acc a => if a > cons.max_type_arguments then a else acc)
              r.max_type_arguments },
        (cmds.map argsOne).sum) := by
  simpa [argsCheck] using argsCheck_foldl cmds cons r 0

/-- C7: per-command argument counts by variant (MoveCall: Arguments;
TransferObjects: Objects; MergeCoins: FromCoins; SplitCoin: Amount;
MakeMoveVec: Vector; Publish/Upgrade: Modules) and type-argument counts
(Type_Arguments for MoveCall, zero otherwise); each per-command count is
flagged independently against its configured maximum with the last
offending command count kept, and the running total of argument counts
is compared against max_num_transferred_move_object_ids. `Command`
declares exactly these seven variants, so the source silent default
match arm is unreachable. -/
theorem C7_command_argument_metrics :
    (∀ m, argsOne (.MoveCall m) = m.Arguments.length) ∧
    (∀ t, argsOne (.TransferObjects t) = t.Objects.length) ∧
    (∀ m, argsOne (.MergeCoins m) = m.FromCoins.length) ∧
    (∀ s, argsOne (.SplitCoin s) = s.Amount.length) ∧
    (∀ m, argsOne (.MakeMoveVec m) = m.Vector.length) ∧
    (∀ p, argsOne (.Publish p) = p.Modules.length) ∧
    (∀ u, argsOne (.Upgrade u) = u.Modules.length) ∧
    (∀ m, typeArgsOne (.MoveCall m) = m.Type_Arguments.length) ∧
    (∀ t, typeArgsOne (.TransferObjects t) = 0) ∧
    (∀ m, typeArgsOne (.MergeCoins m) = 0) ∧
    (∀ s, typeArgsOne (.SplitCoin s) = 0) ∧
    (∀ m, typeArgsOne (.MakeMoveVec m) = 0) ∧
    (∀ p, typeArgsOne (.Publish p) = 0) ∧
    (∀ u, typeArgsOne (.Upgrade u) = 0) ∧
    (∀ st : SuiTransaction,
      (preCommandCheckAccum st).1.max_arguments =
        (st.builder.commands.map argsOne).foldl
          (fun acc a => if a > st.constraints.max_arguments then a else acc) 0 ∧
      (preCommandCheckAccum st).1.max_type_arguments =
        (st.builder.commands.map typeArgsOne).foldl
          (fun acc a => if a > st.constraints.max_type_arguments then a else acc) 0 ∧
      (preCommandCheckAccum st).1.max_num_transferred_move_object_ids =
        (if (st.builder.commands.map argsOne).sum >
            st.constraints.max_num_transferred_move_object_ids
         then (st.builder.commands.map argsOne).sum else 0)) := by
  refine ⟨fun m => rfl, fun t => rfl, fun m => rfl, fun s => rfl, fun m => rfl, fun p => rfl,
    fun u => rfl, fun m => rfl, fun t => rfl, fun m => rfl, fun s => rfl, fun m => rfl,
    fun p => rfl, fun u => rfl, ?_⟩
  intro st
  simp only [preCommandCheckAccum, argsCheck_spec]
  split_ifs <;> simp

/-- C9: `verify_transaction`, when it returns, yields the constraints
table unchanged together with a violation mapping that is absent when
empty and whose entries all carry nonzero observed values; the mapping is
empty exactly when the accumulator is the all-zero record, so a flagged
violation whose observed value is 0 (max_pure_argument_size configured 0
with no Pure inputs) is omitted and the result is absent. -/
theorem C9_violation_reporting :
    (∀ st serKind c viol, verify_transaction st serKind = .ok (c, viol) →
      c = st.constraints ∧ ∀ d, viol = some d → d ≠ [] ∧ ∀ kv ∈ d, kv.2 ≠ 0) ∧
    (∀ r : TransactionConstraints, errDict r = [] ↔ r = {}) ∧
    (maxPureInputs [] ≥
      (⟨0, 5, 5, 5, 5, 5, 100⟩ : TransactionConstraints).max_pure_argument_size ∧
     verify_transaction ⟨⟨[], [], 0⟩, ⟨0, 5, 5, 5, 5, 5, 100⟩, 1000⟩ (some [0]) =
       .ok (⟨0, 5, 5, 5, 5, 5, 100⟩, none)) := by
  refine ⟨?_, ?_, by decide, by rfl⟩
  · intro st serKind c viol h
    obtain ⟨rr, hout⟩ := verify_ok_shape st serKind (c, viol) h
    injection hout with hc hv
    subst hc
    refine ⟨rfl, ?_⟩
    intro d hd
    rw [hd] at hv
    split at hv
    · simp at hv
    · rename_i hne
      injection hv with hv2
      refine ⟨hv2.symm ▸ hne, ?_⟩
      intro kv hkv
      rw [hv2] at hkv
      have := (List.mem_filter.mp hkv).2
      simpa using this
  · intro r
    obtain ⟨f1, f2, f3, f4, f5, f6, f7⟩ := r
    simp [errDict, List.filter_eq_nil_iff, TransactionConstraints.mk.injEq]

/-- C9 witness: the shape clause applied to a concrete run that returns,
and the emptiness characterization at the all-zero record. -/
theorem C9_violation_reporting_witness :
    ((⟨0, 5, 5, 5, 5, 5, 100⟩ : TransactionConstraints) =
      (⟨⟨[], [], 0⟩, ⟨0, 5, 5, 5, 5, 5, 100⟩, 1000⟩ : SuiTransaction).constraints) ∧
    errDict {} = [] :=
  ⟨(C9_violation_reporting.1 ⟨⟨[], [], 0⟩, ⟨0, 5, 5, 5, 5, 5, 100⟩, 1000⟩ (some [0])
      ⟨0, 5, 5, 5, 5, 5, 100⟩ none rfl).1,
   (C9_violation_reporting.2.1 {}).mpr rfl⟩

end Pysui
